import Mathlib

/-!
# NES emulator: cartridge loader, tile decoder and frame compositor

A shallow embedding of `emulator/cpu.go`, `emulator/ppu.go` and
`emulator/render.go`.

Conventions of the embedding:

* A Go `byte`, `uint16`, `uint` or `int` is a `Nat`; where Go arithmetic on a
  fixed-width type can wrap, the wrap is written out as `% 256` or `% 65536`.
* A Go fixed-size array (`[0x10000]byte`, `[0x4000]byte`, `[16]byte`) is a
  function `Nat → Nat` together with its size; every indexing goes through
  `index`, which yields `none` where Go raises an index-out-of-range error.
* A Go slice (`rom []byte`) is a `ByteSlice`: its elements, and the elements of
  its backing array between its length and its capacity. An index expression is
  bounded by the length, a slice expression (through `slice`) by the capacity.
* A function that can raise a run-time error returns an `Option`; `none` is the
  error outcome.
* Console output (`fmt.Printf`) and the drawing calls of the window library are
  not part of the state and are left out.
-/

namespace emulator

/-! ## Data model -/

/-- Program ROM page size, `prgRomPageSize` of cpu.go. -/
def prgRomPageSize : Nat := 16 * 1024

/-- Character ROM page size, `chrRomPageSize` of cpu.go. -/
def chrRomPageSize : Nat := 8 * 1024

/-- Frame width in pixels. -/
def width : Nat := 256

/-- Frame height in pixels. -/
def height : Nat := 240

/-- Registers of the processor, `cpuRegister` of cpu.go. -/
structure cpuRegister where
  A : Nat
  X : Nat
  Y : Nat
  S : Nat
  P : Nat
  PC : Nat

/-- Picture processing unit, `PPU` of ppu.go. The field `sRAM` (the 256-byte
object attribute memory) is the one render.go reads; the struct of ppu.go does
not declare it. -/
structure PPU where
  RAM : Nat → Nat
  mirror : Bool
  ptr : Nat
  scroll : Nat × Nat
  sRAM : Nat → Nat

/-- Central processing unit, `CPU` of cpu.go. The field `joypad1` is left out:
its type is not declared in these sources and no function embedded here reads
or writes it. -/
structure CPU where
  Reg : cpuRegister
  RAM : Nat → Nat
  PPU : PPU

/-- Size of the CPU memory array `[0x10000]byte`. -/
def cpuRAMSize : Nat := 0x10000

/-- Size of the PPU memory array `[0x4000]byte`. -/
def ppuRAMSize : Nat := 0x4000

/-- Size of the object attribute memory. -/
def sRAMSize : Nat := 0x100

/-- Go array read `a[i]` on an array of `size` elements. -/
def index (size : Nat) (a : Nat → Nat) (i : Nat) : Option Nat :=
  if i < size then some (a i) else none

/-- Go array write `a[i] = v` on an array of `size` elements. -/
def store (size : Nat) (a : Nat → Nat) (i v : Nat) : Option (Nat → Nat) :=
  if i < size then some (fun j => if j = i then v else a j) else none

/-- A Go `[]byte` value: `elems` are the elements below its length, `spare` the
elements of its backing array between its length and its capacity. -/
structure ByteSlice where
  elems : List Nat
  spare : List Nat

/-- The backing array of a slice, from the first element of the slice on. -/
def ByteSlice.array (s : ByteSlice) : List Nat := s.elems ++ s.spare

/-- Go `len(s)`. -/
def ByteSlice.len (s : ByteSlice) : Nat := s.elems.length

/-- Go `cap(s)`. -/
def ByteSlice.cap (s : ByteSlice) : Nat := s.elems.length + s.spare.length

/-- Go slice expression `s[lo:hi]` on a slice: the bounds are checked against the
capacity, `0 <= lo <= hi <= cap(s)`; the result has length `hi - lo` and shares
the backing array. -/
def slice (s : ByteSlice) (lo hi : Nat) : Option ByteSlice :=
  if lo ≤ hi ∧ hi ≤ s.cap then
    some { elems := (s.array.drop lo).take (hi - lo), spare := s.array.drop hi }
  else none

/-- Go loop `for i := 0; i < n; i++ { body }` over a state that the body may
fail to produce. -/
def forLoop {σ : Type} (body : Nat → σ → Option σ) : Nat → σ → Option σ
  | 0, s => some s
  | n + 1, s => (forLoop body n s).bind (body n)

/-! ## cpu.go -/

/-- Assignment `cpu.RAM[i] = v`. -/
def CPU.setRAM (cpu : CPU) (i v : Nat) : Option CPU :=
  (store cpuRAMSize cpu.RAM i v).map (fun m => { cpu with RAM := m })

/-- Assignment `cpu.PPU.RAM[i] = v`. -/
def CPU.setPPURAM (cpu : CPU) (i v : Nat) : Option CPU :=
  (store ppuRAMSize cpu.PPU.RAM i v).map
    (fun m => { cpu with PPU := { cpu.PPU with RAM := m } })

/-- Body of the program ROM copy loop of `LoadROM` (cpu.go lines 53-60). -/
def prgLoopBody (prgPage : Nat) (prgBytes : List Nat) (i : Nat) (cpu : CPU) :
    Option CPU := do
  let b ← prgBytes[i]?
  let cpu ← cpu.setRAM (0x8000 + i) b
  if prgPage = 1 ∧ 0x8000 + i ≥ 0xbffa then
    cpu.setRAM (0x8000 + i + 0x4000) b
  else
    pure cpu

/-- Body of the character ROM copy loop of `LoadROM` (cpu.go lines 63-65). -/
def chrLoopBody (chrBytes : List Nat) (i : Nat) (cpu : CPU) : Option CPU := do
  let b ← chrBytes[i]?
  cpu.setPPURAM i b

/-- `CPU.LoadROM` of cpu.go. The index expressions `rom[6]`, `rom[4]`, `rom[5]`
are bounded by the length of `rom`, the two slice expressions by its capacity;
the function has no length check of its own. -/
def LoadROM (cpu : CPU) (rom : ByteSlice) : Option CPU := do
  let mirrorFlag ← rom.elems[6]?
  let cpu : CPU := { cpu with PPU := { cpu.PPU with mirror := decide (mirrorFlag > 0) } }
  let prgAddr := 0x0010
  let prgPage ← rom.elems[4]?
  let chrAddr := prgAddr + prgPage * prgRomPageSize
  let chrPage ← rom.elems[5]?
  let prgBytes ← slice rom prgAddr (prgAddr + prgPage * prgRomPageSize)
  let chrBytes ← slice rom chrAddr (chrAddr + chrPage * chrRomPageSize)
  let cpu ← forLoop (prgLoopBody prgPage prgBytes.elems) prgBytes.len cpu
  forLoop (chrLoopBody chrBytes.elems) chrBytes.len cpu

/-- `CPU.FetchCode8` of cpu.go: the state is not modified. The index is the
`uint` sum `uint(PC) + index`, which does not wrap for a sum below 2^32. -/
def FetchCode8 (cpu : CPU) (idx : Nat) : Option Nat :=
  index cpuRAMSize cpu.RAM (cpu.Reg.PC + idx)

/-- `CPU.getVRAMDelta` of cpu.go. -/
def CPU.getVRAMDelta (cpu : CPU) : Option Nat := do
  let value ← index cpuRAMSize cpu.RAM 0x2000
  if (value &&& 0x04) > 0 then pure 32 else pure 1

/-- The thirteen addressing routines `MainLoop` calls. Their bodies are not in
these sources, so they are parameters: each takes the state and yields the
effective address and the state it leaves, or fails. -/
structure AddressingModes where
  ImpliedAddressing : CPU → Option (Nat × CPU)
  AccumulatorAddressing : CPU → Option (Nat × CPU)
  ImmediateAddressing : CPU → Option (Nat × CPU)
  ZeroPageAddressing : CPU → Option (Nat × CPU)
  ZeroPageXAddressing : CPU → Option (Nat × CPU)
  ZeroPageYAddressing : CPU → Option (Nat × CPU)
  AbsoluteAddressing : CPU → Option (Nat × CPU)
  AbsoluteXAddressing : CPU → Option (Nat × CPU)
  AbsoluteYAddressing : CPU → Option (Nat × CPU)
  RelativeAddressing : CPU → Option (Nat × CPU)
  IndexedIndirectAddressing : CPU → Option (Nat × CPU)
  IndirectIndexedAddressing : CPU → Option (Nat × CPU)
  AbsoluteIndirectAddressing : CPU → Option (Nat × CPU)

/-- The instruction routines `MainLoop` dispatches to. Their bodies are not in
these sources, so they are parameters: each takes the effective address and the
state and yields the next state, or fails. -/
structure Instructions where
  ADC : Nat → CPU → Option CPU
  SBC : Nat → CPU → Option CPU
  AND : Nat → CPU → Option CPU
  ORA : Nat → CPU → Option CPU
  EOR : Nat → CPU → Option CPU
  ASL : Nat → CPU → Option CPU
  LSR : Nat → CPU → Option CPU
  ROL : Nat → CPU → Option CPU
  ROR : Nat → CPU → Option CPU
  BCC : Nat → CPU → Option CPU
  BCS : Nat → CPU → Option CPU
  BEQ : Nat → CPU → Option CPU
  BNE : Nat → CPU → Option CPU
  BVC : Nat → CPU → Option CPU
  BVS : Nat → CPU → Option CPU
  BPL : Nat → CPU → Option CPU
  BMI : Nat → CPU → Option CPU
  BIT : Nat → CPU → Option CPU
  JMP : Nat → CPU → Option CPU
  JSR : Nat → CPU → Option CPU
  RTS : Nat → CPU → Option CPU
  BRK : Nat → CPU → Option CPU
  RTI : Nat → CPU → Option CPU
  CMP : Nat → CPU → Option CPU
  CPX : Nat → CPU → Option CPU
  CPY : Nat → CPU → Option CPU
  INC : Nat → CPU → Option CPU
  DEC : Nat → CPU → Option CPU
  INX : Nat → CPU → Option CPU
  DEX : Nat → CPU → Option CPU
  INY : Nat → CPU → Option CPU
  DEY : Nat → CPU → Option CPU
  CLC : Nat → CPU → Option CPU
  SEC : Nat → CPU → Option CPU
  CLI : Nat → CPU → Option CPU
  SEI : Nat → CPU → Option CPU
  CLD : Nat → CPU → Option CPU
  SED : Nat → CPU → Option CPU
  CLV : Nat → CPU → Option CPU
  LDA : Nat → CPU → Option CPU
  LDX : Nat → CPU → Option CPU
  LDY : Nat → CPU → Option CPU
  STA : Nat → CPU → Option CPU
  STX : Nat → CPU → Option CPU
  STY : Nat → CPU → Option CPU
  TAX : Nat → CPU → Option CPU
  TAY : Nat → CPU → Option CPU
  TXA : Nat → CPU → Option CPU
  TYA : Nat → CPU → Option CPU
  TSX : Nat → CPU → Option CPU
  TXS : Nat → CPU → Option CPU
  PHA : Nat → CPU → Option CPU
  PLA : Nat → CPU → Option CPU
  PHP : Nat → CPU → Option CPU
  PLP : Nat → CPU → Option CPU
  NOP : Nat → CPU → Option CPU

/-- The addressing switch of `MainLoop` (cpu.go lines 82-112). `addr` is declared
by `var addr uint16`, so it is 0 unless a case assigns it. -/
def addressingSwitch (m : AddressingModes) (addressing : String) (cpu : CPU) :
    Option (Nat × CPU) :=
  match addressing with
  | "impl" => m.ImpliedAddressing cpu
  | "A" => m.AccumulatorAddressing cpu
  | "#" => m.ImmediateAddressing cpu
  | "zpg" => m.ZeroPageAddressing cpu
  | "zpg,X" => m.ZeroPageXAddressing cpu
  | "zpg,Y" => m.ZeroPageYAddressing cpu
  | "abs" => m.AbsoluteAddressing cpu
  | "abs,X" => m.AbsoluteXAddressing cpu
  | "abs,Y" => m.AbsoluteYAddressing cpu
  | "rel" => m.RelativeAddressing cpu
  | "X,ind" => m.IndexedIndirectAddressing cpu
  | "ind,Y" => m.IndirectIndexedAddressing cpu
  | "Ind" => m.AbsoluteIndirectAddressing cpu
  | _ => some (0, cpu)

/-- The instruction switch of `MainLoop` (cpu.go lines 116-231). -/
def instructionSwitch (h : Instructions) (instruction : String) (addr : Nat)
    (cpu : CPU) : Option CPU :=
  match instruction with
  | "ADC" => h.ADC addr cpu
  | "SBC" => h.SBC addr cpu
  | "AND" => h.AND addr cpu
  | "ORA" => h.ORA addr cpu
  | "EOR" => h.EOR addr cpu
  | "ASL" => h.ASL addr cpu
  | "LSR" => h.LSR addr cpu
  | "ROL" => h.ROL addr cpu
  | "ROR" => h.ROR addr cpu
  | "BCC" => h.BCC addr cpu
  | "BCS" => h.BCS addr cpu
  | "BEQ" => h.BEQ addr cpu
  | "BNE" => h.BNE addr cpu
  | "BVC" => h.BVC addr cpu
  | "BVS" => h.BVS addr cpu
  | "BPL" => h.BPL addr cpu
  | "BMI" => h.BMI addr cpu
  | "BIT" => h.BIT addr cpu
  | "JMP" => h.JMP addr cpu
  | "JSR" => h.JSR addr cpu
  | "RTS" => h.RTS addr cpu
  | "BRK" => h.BRK addr cpu
  | "RTI" => h.RTI addr cpu
  | "CMP" => h.CMP addr cpu
  | "CPX" => h.CPX addr cpu
  | "CPY" => h.CPY addr cpu
  | "INC" => h.INC addr cpu
  | "DEC" => h.DEC addr cpu
  | "INX" => h.INX addr cpu
  | "DEX" => h.DEX addr cpu
  | "INY" => h.INY addr cpu
  | "DEY" => h.DEY addr cpu
  | "CLC" => h.CLC addr cpu
  | "SEC" => h.SEC addr cpu
  | "CLI" => h.CLI addr cpu
  | "SEI" => h.SEI addr cpu
  | "CLD" => h.CLD addr cpu
  | "SED" => h.SED addr cpu
  | "CLV" => h.CLV addr cpu
  | "LDA" => h.LDA addr cpu
  | "LDX" => h.LDX addr cpu
  | "LDY" => h.LDY addr cpu
  | "STA" => h.STA addr cpu
  | "STX" => h.STX addr cpu
  | "STY" => h.STY addr cpu
  | "TAX" => h.TAX addr cpu
  | "TAY" => h.TAY addr cpu
  | "TXA" => h.TXA addr cpu
  | "TYA" => h.TYA addr cpu
  | "TSX" => h.TSX addr cpu
  | "TXS" => h.TXS addr cpu
  | "PHA" => h.PHA addr cpu
  | "PLA" => h.PLA addr cpu
  | "PHP" => h.PHP addr cpu
  | "PLP" => h.PLP addr cpu
  | "NOP" => h.NOP addr cpu
  | _ => some cpu

/-- One iteration of the loop of `CPU.MainLoop` (cpu.go lines 71-231). The opcode
table `instructions` is not in these sources and is a parameter: it gives the
mnemonic and the addressing-mode tag of an opcode byte. -/
def MainLoopBody (instructions : Nat → String × String) (m : AddressingModes)
    (h : Instructions) (cpu : CPU) : Option CPU := do
  let opcode ← FetchCode8 cpu 0
  let instruction := (instructions opcode).1
  let addressing := (instructions opcode).2
  let (addr, cpu) ← addressingSwitch m addressing cpu
  instructionSwitch h instruction addr cpu

/-! ## ppu.go -/

/-- `PPU.isInVBlank` of ppu.go. -/
def PPU.isInVBlank (ppu : PPU) : Option Bool := do
  let value ← index ppuRAMSize ppu.RAM 0x2002
  pure (decide ((value >>> 7) > 0))

/-- `PPU.getVRAMDelta` of ppu.go. -/
def PPU.getVRAMDelta (ppu : PPU) : Option Nat := do
  let value ← index ppuRAMSize ppu.RAM 0x2000
  if (value &&& 0x04) > 0 then pure 32 else pure 1

/-- A `color.RGBA` value. -/
structure RGBA where
  R : Nat
  G : Nat
  B : Nat
  A : Nat
  deriving DecidableEq

/-- An 8x8 `image.RGBA`, as the colour of each point. -/
def Image : Type := Nat → Nat → RGBA

/-- `image.NewRGBA(image.Rect(0, 0, 8, 8))`: every pixel is zero. -/
def NewRGBA : Image := fun _ _ => ⟨0, 0, 0, 0⟩

/-- `img.Set(x, y, c)` on an 8x8 image: a point outside the rectangle is ignored. -/
def Image.Set (img : Image) (x y : Nat) (c : RGBA) : Image :=
  fun i j => if x < 8 ∧ y < 8 ∧ i = x ∧ j = y then c else img i j

/-- `color0` of `outputImage` (ppu.go line 111): the low-plane bit of pixel
`(x, y)`. The constant `0x01` takes the type `byte` of the other operand. -/
def color0 (bytes : Nat → Nat) (x y : Nat) : Option Nat := do
  let b ← index 16 bytes y
  pure ((b &&& ((0x01 <<< (7 - x)) % 256)) >>> (7 - x))

/-- `color1` of `outputImage` (ppu.go line 112): the high-plane bit of pixel
`(x, y)`, shifted left by one as a `byte`. -/
def color1 (bytes : Nat → Nat) (x y : Nat) : Option Nat := do
  let b ← index 16 bytes (y + 8)
  pure ((((b &&& ((0x01 <<< (7 - x)) % 256)) >>> (7 - x)) <<< 1) % 256)

/-- The colour-in-group index `color0+color1` of `outputImage` (ppu.go line
114), a `byte` sum. -/
def colorInGroup (bytes : Nat → Nat) (x y : Nat) : Option Nat := do
  let c0 ← color0 bytes x y
  let c1 ← color1 bytes x y
  pure ((c0 + c1) % 256)

/-- The palette RAM offset `p` of `outputImage` (ppu.go line 114):
`uint(pallete*4) + uint(color0+color1)`, the product being a `byte`. -/
def palleteOffset (bytes : Nat → Nat) (pallete x y : Nat) : Option Nat := do
  let c ← colorInGroup bytes x y
  pure ((pallete * 4) % 256 + c)

/-- The colour `outputImage` gives pixel `(x, y)` (ppu.go lines 111-116). The
table `colors` is not in these sources and is a parameter: a list of
(R, G, B) entries. -/
def pixelColor (colors : List (Nat × Nat × Nat)) (ppu : PPU) (bytes : Nat → Nat)
    (pallete x y : Nat) : Option RGBA := do
  let p ← palleteOffset bytes pallete x y
  let e ← index ppuRAMSize ppu.RAM (0x3f00 + p)
  let (R, G, B) ← colors[e]?
  pure ⟨R, G, B, 0⟩

/-- `PPU.outputImage` of ppu.go. -/
def outputImage (colors : List (Nat × Nat × Nat)) (ppu : PPU) (bytes : Nat → Nat)
    (pallete : Nat) : Option Image :=
  forLoop (fun y img =>
    forLoop (fun x img => do
      let c ← pixelColor colors ppu bytes pallete x y
      pure (img.Set x y c)) 8 img) 8 NewRGBA

/-- The palette group `pallete` that `outputBlock` selects for block `(x, y)`
(ppu.go lines 84-94). -/
def blockPallete (ppu : PPU) (x y : Nat) : Option Nat := do
  let attr ← index ppuRAMSize ppu.RAM (0x23c0 + (x / 4) + (y / 4) * 0x08)
  if x % 4 < 2 ∧ y % 4 < 2 then
    pure (attr &&& 0x03)
  else if x % 4 > 2 ∧ y % 4 < 2 then
    pure ((attr &&& 0x0c) >>> 2)
  else if x % 4 < 2 ∧ y % 4 > 2 then
    pure ((attr &&& 0x30) >>> 4)
  else
    pure ((attr &&& 0xc0) >>> 6)

/-- The tile bytes `spriteBytes` that `outputBlock` copies (ppu.go lines 96-99). -/
def blockBytes (ppu : PPU) (spriteNum : Nat) : Option (Nat → Nat) :=
  forLoop (fun i spriteBytes => do
    let v ← index ppuRAMSize ppu.RAM (spriteNum * 16 + i)
    store 16 spriteBytes i v) 16 (fun _ => 0)

/-- `PPU.outputBlock` of ppu.go. -/
def outputBlock (colors : List (Nat × Nat × Nat)) (ppu : PPU) (x y : Nat) :
    Option Image := do
  let spriteNum ← index ppuRAMSize ppu.RAM (0x2000 + x + y * 0x20)
  let pallete ← blockPallete ppu x y
  let spriteBytes ← blockBytes ppu spriteNum
  outputImage colors ppu spriteBytes pallete

/-- The blocks that one pass of `PPU.Render` draws (ppu.go lines 55-57), in
drawing order: rows `y = 0..height/8 - 1`, and in each row columns
`x = 0..width/8 - 1`. -/
def renderBlocks (colors : List (Nat × Nat × Nat)) (ppu : PPU) : List (Option Image) :=
  (List.range (height / 8)).flatMap
    (fun y => (List.range (width / 8)).map (fun x => outputBlock colors ppu x y))

/-- The contents of the window: the colour drawn at column `px` and row `py`,
rows counted from the top; `none` where nothing has been drawn. -/
def Frame : Type := Nat → Nat → Option RGBA

/-- A window on which nothing has been drawn. -/
def emptyFrame : Frame := fun _ _ => none

/-- `sprite.Draw(win, matrix)` of `PPU.Render` (ppu.go lines 67-69) for block
`(x, y)`: the 8x8 picture is centred at the window point
`(x*8+4, height-4-y*8)`, the y axis of the window pointing up, so it covers the
columns `8x..8x+7` and, counted from the top, the rows `8y..8y+7`. -/
def drawBlock (frame : Frame) (x y : Nat) (pic : Image) : Frame :=
  fun px py =>
    if x * 8 ≤ px ∧ px < x * 8 + 8 ∧ y * 8 ≤ py ∧ py < y * 8 + 8 then
      some (pic (px - x * 8) (py - y * 8))
    else frame px py

/-- Body of the block loop of `PPU.Render` (ppu.go lines 57-69). `picture` stands
for the library calls `jpeg.Encode`, `image.Decode` and
`pixel.PictureDataFromImage`, which are not in these sources: a function of the
image. Encoding an 8x8 image into a `bytes.Buffer` reports no error, so the
`return` of line 61 is left out. -/
def renderBlock (picture : Image → Image) (colors : List (Nat × Nat × Nat)) (ppu : PPU)
    (x y : Nat) (frame : Frame) : Option Frame := do
  let img ← outputBlock colors ppu x y
  pure (drawBlock frame x y (picture img))

/-- One pass of the two block loops of `PPU.Render` (ppu.go lines 55-71) over an
empty window. -/
def renderPass (picture : Image → Image) (colors : List (Nat × Nat × Nat)) (ppu : PPU) :
    Option Frame :=
  forLoop (fun y frame =>
    forLoop (fun x frame => renderBlock picture colors ppu x y frame) (width / 8) frame)
    (height / 8) emptyFrame

/-! ## render.go -/

/-- The sprite lookup `pixel2sprite` of `CPU.Render`: a map from the key
`(pixelY << 8) | pixelX` to the pair `{spriteNum, attr}`. -/
def SpriteMap : Type := Nat → Option (Nat × Nat)

/-- Body of the sprite scan loop of `CPU.Render` (render.go lines 45-48). The sum
`sRAM[i*4] + 1` is a `byte` sum. -/
def spriteScanBody (ppu : PPU) (i : Nat) (pixel2sprite : SpriteMap) :
    Option SpriteMap := do
  let pixelX ← index sRAMSize ppu.sRAM (i * 4 + 3)
  let y0 ← index sRAMSize ppu.sRAM (i * 4)
  let pixelY := (y0 + 1) % 256
  let spriteNum ← index sRAMSize ppu.sRAM (i * 4 + 1)
  let attr ← index sRAMSize ppu.sRAM (i * 4 + 2)
  let key := (((pixelY % 65536) <<< 8) % 65536) ||| (pixelX % 65536)
  pure (fun k => if k = key then some (spriteNum, attr) else pixel2sprite k)

/-- The sprite scan of `CPU.Render` (render.go lines 42-49). -/
def spriteScan (ppu : PPU) : Option SpriteMap :=
  forLoop (spriteScanBody ppu) 64 (fun _ => none)

/-- The key `(uint16(y) << 8) | uint16(x)` under which pixel `(x, y)` is looked
up (render.go line 60). -/
def pixelKey (x y : Nat) : Nat :=
  (((y % 65536) <<< 8) % 65536) ||| (x % 65536)

/-- Start of a scan line in `CPU.Render` (render.go line 55):
`cpu.RAM[0x2002] &= 0xbf`. -/
def lineStart (cpu : CPU) : Option CPU := do
  let v ← index cpuRAMSize cpu.RAM 0x2002
  cpu.setRAM 0x2002 (v &&& 0xbf)

/-- The effect on the CPU state of the per-pixel step of `CPU.Render`
(render.go lines 60-65): the sprite-zero-hit update of the status byte. -/
def pixelStep (pixel2sprite : SpriteMap) (x y : Nat) (cpu : CPU) : Option CPU :=
  match pixel2sprite (pixelKey x y) with
  | some (spriteNum, _) =>
    if spriteNum = 0 then do
      let v ← index cpuRAMSize cpu.RAM 0x2002
      cpu.setRAM 0x2002 (v ||| 0x40)
    else
      pure cpu
  | none => pure cpu

/-! ## Closed forms and sample inputs -/

/-- CPU memory after `n` rounds of the program ROM copy loop started on `ram`. -/
def prgRAM (prgPage : Nat) (prgBytes : List Nat) (n : Nat) (ram : Nat → Nat) :
    Nat → Nat :=
  fun a =>
    if 0x8000 ≤ a ∧ a < 0x8000 + n then prgBytes.getD (a - 0x8000) 0
    else if prgPage = 1 ∧ 0xfffa ≤ a ∧ a < 0xc000 + n then prgBytes.getD (a - 0xc000) 0
    else ram a

/-- PPU memory after `n` rounds of the character ROM copy loop started on `ram`. -/
def chrRAM (chrBytes : List Nat) (n : Nat) (ram : Nat → Nat) : Nat → Nat :=
  fun a => if a < n then chrBytes.getD a 0 else ram a

/-- A freshly allocated `CPU`: every field has its zero value. -/
def cpuZero : CPU :=
  { Reg := ⟨0, 0, 0, 0, 0, 0⟩
    RAM := fun _ => 0
    PPU := { RAM := fun _ => 0, mirror := false, ptr := 0, scroll := (0, 0), sRAM := fun _ => 0 } }

/-- A cartridge image with one program bank, every byte of which is 1, and no
pattern bank. -/
def romOneBank : List Nat :=
  [0x4e, 0x45, 0x53, 0x1a, 1, 0, 0, 0, 0, 0, 0, 0, 0, 0, 0, 0] ++ List.replicate 16384 1

/-- A 16-byte image: a header that declares one program bank, and no data. -/
def romHeaderOnly : List Nat :=
  [0x4e, 0x45, 0x53, 0x1a, 1, 0, 0, 0, 0, 0, 0, 0, 0, 0, 0, 0]

/-- A cartridge image with no program bank and one pattern bank, every byte of
which is 7. -/
def romChrOnly : List Nat :=
  [0x4e, 0x45, 0x53, 0x1a, 0, 1, 0, 0, 0, 0, 0, 0, 0, 0, 0, 0] ++ List.replicate 8192 7

/-- The image `romOneBank` as a slice with one spare byte of capacity. -/
def imageOneBank : ByteSlice := { elems := romOneBank, spare := [0] }

/-- The image `romChrOnly` as a slice with one spare byte of capacity. -/
def imageChrOnly : ByteSlice := { elems := romChrOnly, spare := [0] }

/-- The image `romHeaderOnly` as a slice with no spare capacity. -/
def imageHeaderOnly : ByteSlice := { elems := romHeaderOnly, spare := [] }

/-- A slice of 7 bytes, a header cut short that declares no bank, with 9 spare
bytes of capacity. -/
def imageSeven : ByteSlice :=
  { elems := [0x4e, 0x45, 0x53, 0x1a, 0, 0, 0], spare := [0, 0, 0, 0, 0, 0, 0, 0, 0] }

/-- The empty slice. -/
def imageEmpty : ByteSlice := { elems := [], spare := [] }

/-- A PPU whose memory is zero except for the attribute byte at 0x23C0, which
is 0x04 (bits 2-3 hold 1, the other bit pairs hold 0). -/
def ppuAttr04 : PPU :=
  { cpuZero.PPU with RAM := fun a => if a = 0x23c0 then 0x04 else 0 }

/-- A PPU whose memory is zero except for the attribute byte at 0x23C0, which
is 0x10 (bits 4-5 hold 1, the other bit pairs hold 0). -/
def ppuAttr10 : PPU :=
  { cpuZero.PPU with RAM := fun a => if a = 0x23c0 then 0x10 else 0 }

/-- A PPU whose object attribute memory holds record 0 = (Y 99, tile 5, attr 0,
X 100), record 1 = (Y 9, tile 0, attr 0, X 20), and for every other record
(Y 0, tile 1, attr 0, X 0). -/
def ppuSprites : PPU :=
  { cpuZero.PPU with
    sRAM := fun i =>
      if i = 0 then 99 else if i = 1 then 5 else if i = 3 then 100
      else if i = 4 then 9 else if i = 5 then 0 else if i = 7 then 20
      else if i % 4 = 1 then 1 else 0 }

/-- A tile whose low plane is zero and whose high plane has the byte 0x80 in
row 0. -/
def tileHigh80 : Nat → Nat := fun i => if i = 8 then 0x80 else 0

/-- The thirteen addressing-mode tags that the switch of `MainLoop` handles. -/
def handledTags : List String :=
  ["impl", "A", "#", "zpg", "zpg,X", "zpg,Y", "abs", "abs,X", "abs,Y", "rel", "X,ind",
    "ind,Y", "Ind"]

/-- Sample addressing routines: each leaves the state as it is and yields the
address 0xFFFF. -/
def modesFFFF : AddressingModes :=
  { ImpliedAddressing := fun c => some (0xffff, c)
    AccumulatorAddressing := fun c => some (0xffff, c)
    ImmediateAddressing := fun c => some (0xffff, c)
    ZeroPageAddressing := fun c => some (0xffff, c)
    ZeroPageXAddressing := fun c => some (0xffff, c)
    ZeroPageYAddressing := fun c => some (0xffff, c)
    AbsoluteAddressing := fun c => some (0xffff, c)
    AbsoluteXAddressing := fun c => some (0xffff, c)
    AbsoluteYAddressing := fun c => some (0xffff, c)
    RelativeAddressing := fun c => some (0xffff, c)
    IndexedIndirectAddressing := fun c => some (0xffff, c)
    IndirectIndexedAddressing := fun c => some (0xffff, c)
    AbsoluteIndirectAddressing := fun c => some (0xffff, c) }

/-- Sample instruction routines: each leaves the state as it is. -/
def handlersId : Instructions :=
  { ADC := fun _ c => some c
    SBC := fun _ c => some c
    AND := fun _ c => some c
    ORA := fun _ c => some c
    EOR := fun _ c => some c
    ASL := fun _ c => some c
    LSR := fun _ c => some c
    ROL := fun _ c => some c
    ROR := fun _ c => some c
    BCC := fun _ c => some c
    BCS := fun _ c => some c
    BEQ := fun _ c => some c
    BNE := fun _ c => some c
    BVC := fun _ c => some c
    BVS := fun _ c => some c
    BPL := fun _ c => some c
    BMI := fun _ c => some c
    BIT := fun _ c => some c
    JMP := fun _ c => some c
    JSR := fun _ c => some c
    RTS := fun _ c => some c
    BRK := fun _ c => some c
    RTI := fun _ c => some c
    CMP := fun _ c => some c
    CPX := fun _ c => some c
    CPY := fun _ c => some c
    INC := fun _ c => some c
    DEC := fun _ c => some c
    INX := fun _ c => some c
    DEX := fun _ c => some c
    INY := fun _ c => some c
    DEY := fun _ c => some c
    CLC := fun _ c => some c
    SEC := fun _ c => some c
    CLI := fun _ c => some c
    SEI := fun _ c => some c
    CLD := fun _ c => some c
    SED := fun _ c => some c
    CLV := fun _ c => some c
    LDA := fun _ c => some c
    LDX := fun _ c => some c
    LDY := fun _ c => some c
    STA := fun _ c => some c
    STX := fun _ c => some c
    STY := fun _ c => some c
    TAX := fun _ c => some c
    TAY := fun _ c => some c
    TXA := fun _ c => some c
    TYA := fun _ c => some c
    TSX := fun _ c => some c
    TXS := fun _ c => some c
    PHA := fun _ c => some c
    PLA := fun _ c => some c
    PHP := fun _ c => some c
    PLP := fun _ c => some c
    NOP := fun _ c => some c }

/-- The colour entry `{R, G, B, 0}` that `outputImage` builds from a table
entry. -/
def toRGBA (e : Nat × Nat × Nat) : RGBA := ⟨e.1, e.2.1, e.2.2, 0⟩

/-- A colour table of 64 entries, entry `i` being `(i, i, i)`. -/
def colors64 : List (Nat × Nat × Nat) := (List.range 64).map (fun i => (i, i, i))

/-- A PPU whose memory is zero except for the palette byte at 0x3F00, which
is 64. -/
def ppuPalette64 : PPU :=
  { cpuZero.PPU with RAM := fun a => if a = 0x3f00 then 64 else 0 }

/-- A PPU with the memory of a fresh PPU and other mirror, pointer and scroll
fields. -/
def ppuScrolled : PPU :=
  { cpuZero.PPU with mirror := true, ptr := 0x2400, scroll := (8, 16) }

/-- A CPU whose control-register byte at 0x2000 is 0x04, with PC = 0x8000 and a
PPU whose byte at 0x2000 is 0x04. -/
def cpuCtrl04 : CPU :=
  { Reg := ⟨0, 0, 0, 0, 0, 0x8000⟩
    RAM := fun a => if a = 0x2000 then 0x04 else 0
    PPU := { cpuZero.PPU with RAM := fun a => if a = 0x2000 then 0x04 else 0 } }

/-- The blocks of a frame in the order in which `PPU.Render` draws them. -/
def blockOrder : List (Nat × Nat) :=
  (List.range (height / 8)).flatMap (fun y => (List.range (width / 8)).map (fun x => (x, y)))

/-- The window after the body of the block loop of `PPU.Render` has run, on an
empty window, for the blocks of `order`, one after the other in that order. -/
def renderIn (picture : Image → Image) (colors : List (Nat × Nat × Nat)) (ppu : PPU)
    (order : List (Nat × Nat)) : Option Frame :=
  order.foldl (fun frame b => frame.bind (renderBlock picture colors ppu b.1 b.2))
    (some emptyFrame)

/-- Body of the pixel loop of `outputImage` (ppu.go lines 111-116). -/
def setPixel (colors : List (Nat × Nat × Nat)) (ppu : PPU) (bytes : Nat → Nat)
    (pallete x y : Nat) (img : Image) : Option Image := do
  let c ← pixelColor colors ppu bytes pallete x y
  pure (img.Set x y c)

/-- The pixels of a tile in the order in which `outputImage` computes them. -/
def pixelOrder : List (Nat × Nat) :=
  (List.range 8).flatMap (fun y => (List.range 8).map (fun x => (x, y)))

/-- The image after the body of the pixel loop of `outputImage` has run, on a new
image, for the pixels of `order`, one after the other in that order. -/
def outputImageIn (colors : List (Nat × Nat × Nat)) (ppu : PPU) (bytes : Nat → Nat)
    (pallete : Nat) (order : List (Nat × Nat)) : Option Image :=
  order.foldl (fun img b => img.bind (setPixel colors ppu bytes pallete b.1 b.2))
    (some NewRGBA)

/-- The palette group that the branches of `outputBlock` (ppu.go lines 86-94)
select from the attribute byte `attr` for block `(x, y)`. -/
def attrGroup (attr x y : Nat) : Nat :=
  if x % 4 < 2 ∧ y % 4 < 2 then attr &&& 0x03
  else if x % 4 > 2 ∧ y % 4 < 2 then (attr &&& 0x0c) >>> 2
  else if x % 4 < 2 ∧ y % 4 > 2 then (attr &&& 0x30) >>> 4
  else (attr &&& 0xc0) >>> 6

/-- The mnemonics that the instruction switch of `MainLoop` dispatches. -/
def dispatchedMnemonics : List String :=
  [
    "ADC", "SBC", "AND", "ORA", "EOR", "ASL", "LSR", "ROL",
    "ROR", "BCC", "BCS", "BEQ", "BNE", "BVC", "BVS", "BPL",
    "BMI", "BIT", "JMP", "JSR", "RTS", "BRK", "RTI", "CMP",
    "CPX", "CPY", "INC", "DEC", "INX", "DEX", "INY", "DEY",
    "CLC", "SEC", "CLI", "SEI", "CLD", "SED", "CLV", "LDA",
    "LDX", "LDY", "STA", "STX", "STY", "TAX", "TAY", "TXA",
    "TYA", "TSX", "TXS", "PHA", "PLA", "PHP", "PLP", "NOP"]

/-- The key `(pixelY << 8) | pixelX` under which the sprite scan files record
`i` (render.go lines 45 and 48). -/
def recordKey (ppu : PPU) (i : Nat) : Nat :=
  (((((ppu.sRAM (i * 4) + 1) % 256) % 65536) <<< 8) % 65536) ||| (ppu.sRAM (i * 4 + 3) % 65536)

/-- The sprite lookup after the first `n` rounds of the sprite scan. -/
def spriteMapUpTo (ppu : PPU) : Nat → SpriteMap
  | 0 => fun _ => none
  | n + 1 => fun k =>
    if k = recordKey ppu n then some (ppu.sRAM (n * 4 + 1), ppu.sRAM (n * 4 + 2))
    else spriteMapUpTo ppu n k

/-! ## Auxiliary facts -/

theorem slice_eq_some (s : ByteSlice) (lo hi : Nat) (h1 : lo ≤ hi) (h2 : hi ≤ s.cap) :
    slice s lo hi
      = some { elems := (s.array.drop lo).take (hi - lo), spare := s.array.drop hi } := by
  simp [slice, h1, h2]

theorem slice_eq_none (s : ByteSlice) (lo hi : Nat) (h : s.cap < hi) :
    slice s lo hi = none := by
  unfold slice
  rw [if_neg]
  omega

theorem array_length (s : ByteSlice) : s.array.length = s.cap := by
  simp [ByteSlice.array, ByteSlice.cap]

theorem cap_ge_length (s : ByteSlice) : s.elems.length ≤ s.cap := by
  simp [ByteSlice.cap]

theorem array_getD (s : ByteSlice) (i : Nat) (h : i < s.elems.length) :
    s.array.getD i 0 = s.elems.getD i 0 := by
  simp [ByteSlice.array, List.getD, List.getElem?_append_left h]

theorem getD_drop_take (s : List Nat) (lo hi i : Nat) (hlt : i < hi - lo) :
    ((s.drop lo).take (hi - lo)).getD i 0 = s.getD (lo + i) 0 := by
  simp [List.getD, List.getElem?_take, hlt]

theorem prgLoop_eq (prgPage : Nat) (prgBytes : List Nat) (cpu : CPU) (n : Nat)
    (h1 : n ≤ prgBytes.length) (h2 : n ≤ 0x8000) (h3 : prgPage = 1 → n ≤ 0x4000) :
    forLoop (prgLoopBody prgPage prgBytes) n cpu
      = some { cpu with RAM := prgRAM prgPage prgBytes n cpu.RAM } := by
  induction n with
  | zero =>
    have hram : prgRAM prgPage prgBytes 0 cpu.RAM = cpu.RAM := by
      funext a
      simp only [prgRAM]
      split_ifs <;> first | with_reducible rfl | (exfalso; omega)
    simp only [forLoop, hram]
  | succ n ih =>
    have hlt : n < prgBytes.length := by omega
    have hget : prgBytes[n]? = some (prgBytes.getD n 0) := by
      simp [List.getD, List.getElem?_eq_getElem hlt]
    simp only [forLoop, ih (by omega) (by omega) (fun h => by have := h3 h; omega),
      Option.some_bind, prgLoopBody, hget, Option.bind_eq_bind, CPU.setRAM, store, cpuRAMSize]
    have hin : 0x8000 + n < 0x10000 := by omega
    rw [if_pos hin]
    simp only [Option.map_some', Option.some_bind]
    by_cases hm : prgPage = 1 ∧ 0x8000 + n ≥ 0xbffa
    · have hn : n < 0x4000 := by have := h3 hm.1; omega
      rw [if_pos hm, if_pos (by omega)]
      simp only [Option.map_some']
      congr 2
      funext a
      simp only [prgRAM]
      split_ifs <;> first | with_reducible rfl | (exfalso; omega) | exact congrArg (fun k => List.getD _ k 0) (by omega)
    · rw [if_neg hm]
      simp only [pure]
      congr 2
      funext a
      simp only [prgRAM]
      split_ifs <;> first | with_reducible rfl | (exfalso; omega) | exact congrArg (fun k => List.getD _ k 0) (by omega)

theorem chrLoop_eq (chrBytes : List Nat) (cpu : CPU) (n : Nat)
    (h1 : n ≤ chrBytes.length) (h2 : n ≤ 0x4000) :
    forLoop (chrLoopBody chrBytes) n cpu
      = some { cpu with PPU := { cpu.PPU with RAM := chrRAM chrBytes n cpu.PPU.RAM } } := by
  induction n with
  | zero =>
    have hram : chrRAM chrBytes 0 cpu.PPU.RAM = cpu.PPU.RAM := by
      funext a
      simp [chrRAM]
    simp only [forLoop, hram]
  | succ n ih =>
    have hlt : n < chrBytes.length := by omega
    have hget : chrBytes[n]? = some (chrBytes.getD n 0) := by
      simp [List.getD, List.getElem?_eq_getElem hlt]
    simp only [forLoop, ih (by omega) (by omega), Option.some_bind, chrLoopBody, hget,
      Option.bind_eq_bind, CPU.setPPURAM, store, ppuRAMSize]
    rw [if_pos (by omega)]
    simp only [Option.map_some']
    congr 3
    funext a
    simp only [chrRAM]
    split_ifs <;> first | with_reducible rfl | (exfalso; omega) | exact congrArg (fun k => List.getD _ k 0) (by omega)

theorem LoadROM_eq_cap (cpu : CPU) (rom : ByteSlice) (prgPage chrPage : Nat)
    (h6 : 6 < rom.elems.length)
    (h4 : rom.elems[4]? = some prgPage) (h5 : rom.elems[5]? = some chrPage)
    (hp : prgPage ≤ 2) (hc : chrPage ≤ 2)
    (hcap : 16 + prgPage * 16384 + chrPage * 8192 ≤ rom.cap) :
    LoadROM cpu rom = some
      { Reg := cpu.Reg
        RAM := prgRAM prgPage ((rom.array.drop 16).take (prgPage * 16384)) (prgPage * 16384)
          cpu.RAM
        PPU :=
          { cpu.PPU with
            mirror := decide (rom.elems.getD 6 0 > 0)
            RAM := chrRAM ((rom.array.drop (16 + prgPage * 16384)).take (chrPage * 8192))
              (chrPage * 8192) cpu.PPU.RAM } } := by
  have h6e : rom.elems[6]? = some (rom.elems.getD 6 0) := by
    simp [List.getD, List.getElem?_eq_getElem h6]
  have hs1 : slice rom 16 (16 + prgPage * 16384)
      = some { elems := (rom.array.drop 16).take (prgPage * 16384)
               spare := rom.array.drop (16 + prgPage * 16384) } := by
    rw [slice_eq_some rom 16 (16 + prgPage * 16384) (by omega) (by omega)]
    rw [Nat.add_sub_cancel_left]
  have hs2 : slice rom (16 + prgPage * 16384) (16 + prgPage * 16384 + chrPage * 8192)
      = some { elems := (rom.array.drop (16 + prgPage * 16384)).take (chrPage * 8192)
               spare := rom.array.drop (16 + prgPage * 16384 + chrPage * 8192) } := by
    rw [slice_eq_some rom _ _ (by omega) (by omega)]
    rw [Nat.add_sub_cancel_left]
  have hl1 : ((rom.array.drop 16).take (prgPage * 16384)).length = prgPage * 16384 := by
    rw [List.length_take, List.length_drop, array_length]
    omega
  have hl2 : ((rom.array.drop (16 + prgPage * 16384)).take (chrPage * 8192)).length
      = chrPage * 8192 := by
    rw [List.length_take, List.length_drop, array_length]
    omega
  have e1 : prgRomPageSize = 16384 := rfl
  have e2 : chrRomPageSize = 8192 := rfl
  simp only [LoadROM, ByteSlice.len, h6e, h4, h5, e1, e2, Option.bind_eq_bind,
    Option.some_bind, hs1, hs2, hl1, hl2]
  rw [prgLoop_eq _ _ _ _ (by omega) (by omega) (by intro h; omega)]
  simp only [Option.some_bind]
  rw [chrLoop_eq _ _ _ (by omega) (by omega)]

theorem LoadROM_eq (cpu : CPU) (rom : ByteSlice) (prgPage chrPage : Nat)
    (h4 : rom.elems[4]? = some prgPage) (h5 : rom.elems[5]? = some chrPage)
    (hp : prgPage ≤ 2) (hc : chrPage ≤ 2)
    (hlen : 16 + prgPage * 16384 + chrPage * 8192 ≤ rom.elems.length) :
    LoadROM cpu rom = some
      { Reg := cpu.Reg
        RAM := prgRAM prgPage ((rom.array.drop 16).take (prgPage * 16384)) (prgPage * 16384)
          cpu.RAM
        PPU :=
          { cpu.PPU with
            mirror := decide (rom.elems.getD 6 0 > 0)
            RAM := chrRAM ((rom.array.drop (16 + prgPage * 16384)).take (chrPage * 8192))
              (chrPage * 8192) cpu.PPU.RAM } } :=
  LoadROM_eq_cap cpu rom prgPage chrPage (by omega) h4 h5 hp hc
    (by have := cap_ge_length rom; omega)

theorem romOneBank_length : romOneBank.length = 16400 := by
  rw [romOneBank, List.length_append, List.length_replicate]
  rfl

theorem romOneBank_header (i : Nat) (h : i < 16) :
    romOneBank[i]? = [0x4e, 0x45, 0x53, 0x1a, 1, 0, 0, 0, 0, 0, 0, 0, 0, 0, 0, 0][i]? := by
  rw [romOneBank, List.getElem?_append_left (by simpa using h)]

theorem romOneBank_four : romOneBank[4]? = some 1 := by
  rw [romOneBank_header 4 (by omega)]
  rfl

theorem romOneBank_five : romOneBank[5]? = some 0 := by
  rw [romOneBank_header 5 (by omega)]
  rfl

theorem romOneBank_data (i : Nat) (h1 : 16 ≤ i) (h2 : i < 16400) :
    romOneBank.getD i 0 = 1 := by
  have hlen : ([0x4e, 0x45, 0x53, 0x1a, 1, 0, 0, 0, 0, 0, 0, 0, 0, 0, 0, 0] : List Nat).length
      = 16 := rfl
  rw [List.getD_eq_getElem?_getD, romOneBank, List.getElem?_append_right (by omega),
    List.getElem?_replicate,
    if_pos (by omega)]
  rfl

theorem romChrOnly_length : romChrOnly.length = 8208 := by
  rw [romChrOnly, List.length_append, List.length_replicate]
  rfl

theorem romChrOnly_four : romChrOnly[4]? = some 0 := by
  rw [romChrOnly, List.getElem?_append_left (by simp)]
  rfl

theorem romChrOnly_five : romChrOnly[5]? = some 1 := by
  rw [romChrOnly, List.getElem?_append_left (by simp)]
  rfl

theorem imageOneBank_length : imageOneBank.elems.length = 16400 := romOneBank_length

theorem imageOneBank_four : imageOneBank.elems[4]? = some 1 := romOneBank_four

theorem imageOneBank_five : imageOneBank.elems[5]? = some 0 := romOneBank_five

theorem imageOneBank_data (i : Nat) (h1 : 16 ≤ i) (h2 : i < 16400) :
    imageOneBank.array.getD i 0 = 1 := by
  rw [array_getD _ _ (by have := imageOneBank_length; omega)]
  exact romOneBank_data i h1 h2

theorem imageChrOnly_length : imageChrOnly.elems.length = 8208 := romChrOnly_length

theorem imageChrOnly_four : imageChrOnly.elems[4]? = some 0 := romChrOnly_four

theorem imageChrOnly_five : imageChrOnly.elems[5]? = some 1 := romChrOnly_five

theorem forLoop_none {σ : Type} (body : Nat → σ → Option σ) (i : Nat)
    (hbody : ∀ s, body i s = none) (n : Nat) (hn : i < n) (s : σ) :
    forLoop body n s = none := by
  induction n with
  | zero => omega
  | succ n ih =>
    show (forLoop body n s).bind (body n) = none
    by_cases hi : i = n
    · subst hi
      cases forLoop body i s with
      | none => rfl
      | some t => exact hbody t
    · rw [ih (by omega)]
      rfl

theorem prgLoopBody_none (prgPage : Nat) (prgBytes : List Nat) (cpu : CPU) :
    prgLoopBody prgPage prgBytes 0x8000 cpu = none := by
  unfold prgLoopBody
  cases prgBytes[0x8000]? with
  | none => rfl
  | some b =>
    have e : cpu.setRAM (0x8000 + 0x8000) b = none := by
      simp only [CPU.setRAM, store, cpuRAMSize]
      rw [if_neg (by omega)]
      rfl
    simp only [Option.bind_eq_bind, Option.some_bind, e, Option.none_bind]

theorem chrLoopBody_none (chrBytes : List Nat) (cpu : CPU) :
    chrLoopBody chrBytes 0x4000 cpu = none := by
  unfold chrLoopBody
  cases chrBytes[0x4000]? with
  | none => rfl
  | some b =>
    have e : cpu.setPPURAM 0x4000 b = none := by
      simp only [CPU.setPPURAM, store, ppuRAMSize]
      rw [if_neg (by omega)]
      rfl
    simp only [Option.bind_eq_bind, Option.some_bind, e]

theorem LoadROM_none_of_six (cpu : CPU) (rom : ByteSlice) (h : rom.elems.length ≤ 6) :
    LoadROM cpu rom = none := by
  have h6 : rom.elems[6]? = none := List.getElem?_eq_none h
  unfold LoadROM
  rw [h6]
  rfl

theorem LoadROM_none_of_short (cpu : CPU) (rom : ByteSlice) (prgPage chrPage : Nat)
    (h4 : rom.elems[4]? = some prgPage) (h5 : rom.elems[5]? = some chrPage)
    (hcap : rom.cap < 16 + prgPage * 16384 + chrPage * 8192) :
    LoadROM cpu rom = none := by
  unfold LoadROM
  cases h6 : rom.elems[6]? with
  | none => rfl
  | some mirrorFlag =>
    have hs : slice rom (16 + prgPage * prgRomPageSize)
        (16 + prgPage * prgRomPageSize + chrPage * chrRomPageSize) = none :=
      slice_eq_none _ _ _ (by simpa [prgRomPageSize, chrRomPageSize] using hcap)
    simp only [h4, h5, Option.bind_eq_bind, Option.some_bind, hs, Option.none_bind]
    cases slice rom 16 (16 + prgPage * prgRomPageSize) <;> rfl

theorem LoadROM_none_of_banks (cpu : CPU) (rom : ByteSlice) (prgPage chrPage : Nat)
    (h6 : 6 < rom.elems.length)
    (h4 : rom.elems[4]? = some prgPage) (h5 : rom.elems[5]? = some chrPage)
    (hcap : 16 + prgPage * 16384 + chrPage * 8192 ≤ rom.cap)
    (hb : 3 ≤ prgPage ∨ 3 ≤ chrPage) :
    LoadROM cpu rom = none := by
  have h6e : rom.elems[6]? = some (rom.elems.getD 6 0) := by
    simp [List.getD, List.getElem?_eq_getElem h6]
  have hs1 : slice rom 16 (16 + prgPage * 16384)
      = some { elems := (rom.array.drop 16).take (prgPage * 16384)
               spare := rom.array.drop (16 + prgPage * 16384) } := by
    rw [slice_eq_some rom 16 (16 + prgPage * 16384) (by omega) (by omega)]
    rw [Nat.add_sub_cancel_left]
  have hs2 : slice rom (16 + prgPage * 16384) (16 + prgPage * 16384 + chrPage * 8192)
      = some { elems := (rom.array.drop (16 + prgPage * 16384)).take (chrPage * 8192)
               spare := rom.array.drop (16 + prgPage * 16384 + chrPage * 8192) } := by
    rw [slice_eq_some rom _ _ (by omega) (by omega)]
    rw [Nat.add_sub_cancel_left]
  have hl1 : ((rom.array.drop 16).take (prgPage * 16384)).length = prgPage * 16384 := by
    rw [List.length_take, List.length_drop, array_length]
    omega
  have hl2 : ((rom.array.drop (16 + prgPage * 16384)).take (chrPage * 8192)).length
      = chrPage * 8192 := by
    rw [List.length_take, List.length_drop, array_length]
    omega
  have e1 : prgRomPageSize = 16384 := rfl
  have e2 : chrRomPageSize = 8192 := rfl
  simp only [LoadROM, ByteSlice.len, h6e, h4, h5, e1, e2, Option.bind_eq_bind,
    Option.some_bind, hs1, hs2, hl1, hl2]
  by_cases hp : 3 ≤ prgPage
  · rw [forLoop_none _ 0x8000 (prgLoopBody_none _ _) _ (by omega)]
    rfl
  · rw [prgLoop_eq _ _ _ _ (by omega) (by omega) (by intro h; omega)]
    simp only [Option.some_bind]
    exact forLoop_none _ 0x4000 (chrLoopBody_none _) _ (by omega) _

theorem LoadROM_accepts (cpu c : CPU) (rom : ByteSlice) (h : LoadROM cpu rom = some c) :
    ∃ prgPage chrPage, 6 < rom.elems.length ∧
      rom.elems[4]? = some prgPage ∧ rom.elems[5]? = some chrPage ∧
      prgPage ≤ 2 ∧ chrPage ≤ 2 ∧ 16 + prgPage * 16384 + chrPage * 8192 ≤ rom.cap := by
  by_cases h6 : 6 < rom.elems.length
  · have h4 : rom.elems[4]? = some (rom.elems.getD 4 0) := by
      simp [List.getD, List.getElem?_eq_getElem (by omega : 4 < rom.elems.length)]
    have h5 : rom.elems[5]? = some (rom.elems.getD 5 0) := by
      simp [List.getD, List.getElem?_eq_getElem (by omega : 5 < rom.elems.length)]
    refine ⟨_, _, h6, h4, h5, ?_⟩
    by_cases hcap : 16 + rom.elems.getD 4 0 * 16384 + rom.elems.getD 5 0 * 8192 ≤ rom.cap
    · by_cases hb : 3 ≤ rom.elems.getD 4 0 ∨ 3 ≤ rom.elems.getD 5 0
      · rw [LoadROM_none_of_banks cpu rom _ _ h6 h4 h5 hcap hb] at h
        cases h
      · exact ⟨by omega, by omega, hcap⟩
    · rw [LoadROM_none_of_short cpu rom _ _ h4 h5 (by omega)] at h
      cases h
  · rw [LoadROM_none_of_six cpu rom (by omega)] at h
    cases h

theorem LoadROM_cap_bytes (cpu : CPU) (rom : ByteSlice) (prgPage chrPage : Nat)
    (h6 : 6 < rom.elems.length)
    (h4 : rom.elems[4]? = some prgPage) (h5 : rom.elems[5]? = some chrPage)
    (hp : prgPage ≤ 2) (hc : chrPage ≤ 2)
    (hcap : 16 + prgPage * 16384 + chrPage * 8192 ≤ rom.cap) :
    ∃ c, LoadROM cpu rom = some c ∧
      (∀ i, i < prgPage * 16384 → c.RAM (0x8000 + i) = rom.array.getD (16 + i) 0) ∧
      (∀ i, i < chrPage * 8192 →
        c.PPU.RAM i = rom.array.getD (16 + prgPage * 16384 + i) 0) := by
  refine ⟨_, LoadROM_eq_cap cpu rom prgPage chrPage h6 h4 h5 hp hc hcap, ?_, ?_⟩
  · intro i hi
    simp only [prgRAM]
    rw [if_pos (by omega)]
    have e : prgPage * 16384 = (16 + prgPage * 16384) - 16 := by omega
    rw [e, getD_drop_take _ _ _ _ (by omega)]
    exact congrArg (fun k => List.getD _ k 0) (by omega)
  · intro i hi
    simp only [chrRAM]
    rw [if_pos hi]
    have e : chrPage * 8192
        = (16 + prgPage * 16384 + chrPage * 8192) - (16 + prgPage * 16384) := by
      omega
    rw [e, getD_drop_take _ _ _ _ (by omega)]

theorem imageOneBank_six : imageOneBank.elems[6]? = some 0 := by
  show romOneBank[6]? = some 0
  rw [romOneBank_header 6 (by omega)]
  rfl

theorem imageOneBank_loads :
    LoadROM cpuZero imageOneBank = some
      { Reg := cpuZero.Reg
        RAM := prgRAM 1 ((imageOneBank.array.drop 16).take (1 * 16384)) (1 * 16384)
          cpuZero.RAM
        PPU :=
          { cpuZero.PPU with
            mirror := decide (imageOneBank.elems.getD 6 0 > 0)
            RAM := chrRAM ((imageOneBank.array.drop (16 + 1 * 16384)).take (0 * 8192))
              (0 * 8192) cpuZero.PPU.RAM } } :=
  LoadROM_eq cpuZero imageOneBank 1 0 imageOneBank_four imageOneBank_five (by omega)
    (by omega) (by have := imageOneBank_length; omega)

theorem and_bit_shift (b k : Nat) : (b &&& 2 ^ k) >>> k = b / 2 ^ k % 2 := by
  rw [← Nat.toNat_testBit]
  apply Nat.eq_of_testBit_eq
  intro i
  rw [Nat.testBit_shiftRight, Nat.testBit_and, Nat.testBit_two_pow]
  cases i with
  | zero => cases h : b.testBit k <;> simp [h]
  | succ j =>
    have hne : ¬ (k = k + (j + 1)) := by omega
    cases h : b.testBit k <;> simp [hne, Nat.testBit_succ]

theorem byte_mask (k : Nat) (h : k ≤ 7) : (0x01 <<< k) % 256 = 2 ^ k := by
  rw [Nat.one_shiftLeft]
  apply Nat.mod_eq_of_lt
  calc 2 ^ k ≤ 2 ^ 7 := Nat.pow_le_pow_right (by omega) h
    _ < 256 := by norm_num

theorem color0_eq (bytes : Nat → Nat) (x y : Nat) (hy : y < 8) :
    color0 bytes x y = some (bytes y / 2 ^ (7 - x) % 2) := by
  simp only [color0, index]
  rw [if_pos (by omega)]
  simp only [Option.bind_eq_bind, Option.some_bind, pure]
  rw [byte_mask _ (by omega), and_bit_shift]

theorem color1_eq (bytes : Nat → Nat) (x y : Nat) (hy : y < 8) :
    color1 bytes x y = some (2 * (bytes (y + 8) / 2 ^ (7 - x) % 2)) := by
  simp only [color1, index]
  rw [if_pos (by omega)]
  simp only [Option.bind_eq_bind, Option.some_bind, pure]
  rw [byte_mask _ (by omega), and_bit_shift, Nat.shiftLeft_eq]
  have hlt : bytes (y + 8) / 2 ^ (7 - x) % 2 < 2 := Nat.mod_lt _ (by omega)
  congr 1
  omega

theorem colorInGroup_eq (bytes : Nat → Nat) (x y : Nat) (hy : y < 8) :
    colorInGroup bytes x y
      = some (bytes y / 2 ^ (7 - x) % 2 + 2 * (bytes (y + 8) / 2 ^ (7 - x) % 2)) := by
  simp only [colorInGroup, color0_eq bytes x y hy, color1_eq bytes x y hy,
    Option.bind_eq_bind, Option.some_bind, pure]
  have h0 : bytes y / 2 ^ (7 - x) % 2 < 2 := Nat.mod_lt _ (by omega)
  have h1 : bytes (y + 8) / 2 ^ (7 - x) % 2 < 2 := Nat.mod_lt _ (by omega)
  congr 1
  omega

theorem addressingSwitch_default (m : AddressingModes) (addressing : String) (cpu : CPU)
    (h : addressing ∉ handledTags) :
    addressingSwitch m addressing cpu = some (0, cpu) := by
  simp only [handledTags, List.mem_cons, List.mem_singleton, List.not_mem_nil, or_false,
    not_or] at h
  obtain ⟨h1, h2, h3, h4, h5, h6, h7, h8, h9, h10, h11, h12, h13⟩ := h
  unfold addressingSwitch
  split <;> first | rfl | contradiction

theorem palleteOffset_eq (bytes : Nat → Nat) (pallete x y : Nat) (hy : y < 8) :
    palleteOffset bytes pallete x y
      = some ((pallete * 4) % 256
          + (bytes y / 2 ^ (7 - x) % 2 + 2 * (bytes (y + 8) / 2 ^ (7 - x) % 2))) := by
  simp only [palleteOffset, colorInGroup_eq bytes x y hy, Option.bind_eq_bind,
    Option.some_bind, pure]

theorem palleteOffset_le (bytes : Nat → Nat) (pallete x y : Nat) :
    (pallete * 4) % 256
      + (bytes y / 2 ^ (7 - x) % 2 + 2 * (bytes (y + 8) / 2 ^ (7 - x) % 2)) ≤ 255 := by
  have h0 : bytes y / 2 ^ (7 - x) % 2 < 2 := Nat.mod_lt _ (by omega)
  have h1 : bytes (y + 8) / 2 ^ (7 - x) % 2 < 2 := Nat.mod_lt _ (by omega)
  omega

theorem pixelColor_eq (colors : List (Nat × Nat × Nat)) (ppu : PPU) (bytes : Nat → Nat)
    (pallete x y p : Nat) (hp : palleteOffset bytes pallete x y = some p) (hle : p ≤ 255)
    (e : Nat × Nat × Nat) (he : colors[ppu.RAM (0x3f00 + p)]? = some e) :
    pixelColor colors ppu bytes pallete x y = some (toRGBA e) := by
  simp only [pixelColor, hp, Option.bind_eq_bind, Option.some_bind, index, ppuRAMSize]
  rw [if_pos (by omega)]
  simp only [Option.some_bind, he, pure]
  rfl

theorem rowLoop_eq (pix : Nat → Nat → Option RGBA) (f : Nat → Nat → RGBA) (y : Nat)
    (hy : y < 8) (hf : ∀ x, x < 8 → pix x y = some (f x y)) (img : Image) (n : Nat)
    (hn : n ≤ 8) :
    forLoop (fun x (img : Image) => do
        let c ← pix x y
        pure (img.Set x y c)) n img
      = some (fun i j => if i < n ∧ j = y then f i j else img i j) := by
  induction n with
  | zero =>
    have e : (fun i j => if i < 0 ∧ j = y then f i j else img i j) = img := by
      funext i j
      simp
    rw [e]
    rfl
  | succ n ih =>
    have e : (fun i j => if i < n + 1 ∧ j = y then f i j else img i j)
        = Image.Set (fun i j => if i < n ∧ j = y then f i j else img i j) n y (f n y) := by
      funext i j
      simp only [Image.Set]
      split_ifs <;> first | with_reducible rfl | (exfalso; omega) | (congr 2 <;> omega)
    rw [e]
    show (forLoop _ n img).bind _ = _
    rw [ih (by omega)]
    show (pix n y).bind _ = _
    rw [hf n (by omega)]
    rfl

theorem imageLoop_eq (row : Nat → Image → Option Image) (f : Nat → Nat → RGBA)
    (hrow : ∀ y, y < 8 → ∀ img : Image,
      row y img = some (fun i j => if i < 8 ∧ j = y then f i j else img i j))
    (m : Nat) (hm : m ≤ 8) :
    forLoop row m NewRGBA
      = some (fun i j => if i < 8 ∧ j < m then f i j else ⟨0, 0, 0, 0⟩) := by
  induction m with
  | zero =>
    have e : (fun i j => if i < 8 ∧ j < 0 then f i j else (⟨0, 0, 0, 0⟩ : RGBA)) = NewRGBA := by
      funext i j
      simp [NewRGBA]
    rw [e]
    rfl
  | succ m ih =>
    show (forLoop row m NewRGBA).bind (row m) = _
    rw [ih (by omega), Option.some_bind, hrow m (by omega)]
    congr 1
    funext i j
    split_ifs <;> first | with_reducible rfl | (exfalso; omega)

theorem outputImage_eq (colors : List (Nat × Nat × Nat)) (ppu : PPU) (bytes : Nat → Nat)
    (pallete : Nat) (f : Nat → Nat → RGBA)
    (hf : ∀ x y, x < 8 → y < 8 → pixelColor colors ppu bytes pallete x y = some (f x y)) :
    outputImage colors ppu bytes pallete
      = some (fun i j => if i < 8 ∧ j < 8 then f i j else ⟨0, 0, 0, 0⟩) :=
  imageLoop_eq _ f
    (fun y hy img => rowLoop_eq (pixelColor colors ppu bytes pallete) f y hy
      (fun x hx => hf x y hx hy) img 8 (by omega)) 8 (by omega)

theorem pixelColor_none (colors : List (Nat × Nat × Nat)) (ppu : PPU) (bytes : Nat → Nat)
    (pallete x y p : Nat) (hp : palleteOffset bytes pallete x y = some p) (hle : p ≤ 255)
    (he : colors.length ≤ ppu.RAM (0x3f00 + p)) :
    pixelColor colors ppu bytes pallete x y = none := by
  simp only [pixelColor, hp, Option.bind_eq_bind, Option.some_bind, index, ppuRAMSize]
  rw [if_pos (by omega)]
  simp only [Option.some_bind, List.getElem?_eq_none he, Option.none_bind]

theorem outputImage_none (colors : List (Nat × Nat × Nat)) (ppu : PPU) (bytes : Nat → Nat)
    (pallete x y : Nat) (hx : x < 8) (hy : y < 8)
    (h : pixelColor colors ppu bytes pallete x y = none) :
    outputImage colors ppu bytes pallete = none := by
  unfold outputImage
  refine forLoop_none _ y (fun img => ?_) 8 hy NewRGBA
  refine forLoop_none _ x (fun img2 => ?_) 8 hx img
  show (pixelColor colors ppu bytes pallete x y).bind _ = none
  rw [h]
  rfl

theorem outputImage_some (colors : List (Nat × Nat × Nat)) (ppu : PPU) (bytes : Nat → Nat)
    (pallete : Nat) (img : Image) (h : outputImage colors ppu bytes pallete = some img)
    (x y : Nat) (hx : x < 8) (hy : y < 8) :
    pixelColor colors ppu bytes pallete x y = some (img x y) := by
  have hall : ∀ i j, i < 8 → j < 8 → pixelColor colors ppu bytes pallete i j
      = some ((pixelColor colors ppu bytes pallete i j).getD ⟨0, 0, 0, 0⟩) := by
    intro i j hi hj
    cases hc : pixelColor colors ppu bytes pallete i j with
    | none =>
      rw [outputImage_none colors ppu bytes pallete i j hi hj hc] at h
      cases h
    | some c => rfl
  have e := outputImage_eq colors ppu bytes pallete _ hall
  rw [h] at e
  have e2 := Option.some.inj e
  rw [hall x y hx hy]
  congr 1
  rw [e2]
  show _ = (if x < 8 ∧ y < 8 then _ else _)
  rw [if_pos ⟨hx, hy⟩]

/-! ## Cartridge loader -/

/-- C1, as stated, fails: on a fresh CPU, the one-bank image whose program bytes
are all 1 is in the domain of the claim, yet after `LoadROM` the byte at 0xFFF0
differs from the byte at 0xBFF0. -/
theorem C1_mirror_fff0_counterexample :
    imageOneBank.elems[4]? = some 1 ∧ imageOneBank.elems[5]? = some 0 ∧
    16 + 16384 + 0 * 8192 ≤ imageOneBank.elems.length ∧
    ∃ c, LoadROM cpuZero imageOneBank = some c ∧
      c.RAM 0xbff0 = 1 ∧ c.RAM (0xbff0 + 0x4000) = 0 := by
  have h4 := imageOneBank_four
  have h5 := imageOneBank_five
  have hl : 16 + 1 * 16384 + 0 * 8192 ≤ imageOneBank.elems.length := by
    have := imageOneBank_length
    omega
  refine ⟨h4, h5, by have := imageOneBank_length; omega, _,
    LoadROM_eq cpuZero imageOneBank 1 0 h4 h5 (by omega) (by omega) hl, ?_, ?_⟩
  · simp only [prgRAM]
    rw [if_pos (by omega)]
    rw [show 1 * 16384 = 16400 - 16 from rfl, getD_drop_take _ _ _ _ (by omega)]
    exact imageOneBank_data _ (by omega) (by omega)
  · simp only [prgRAM]
    rw [if_neg (by omega), if_neg (by omega)]
    rfl

/-- C1, amended: for a one-bank image, after `LoadROM` every address in
0xBFF0..0xBFFF holds the image byte `rom[16 + (a - 0x8000)]`; the byte at
`a + 0x4000` is identical to the byte at `a` for `a` in 0xBFFA..0xBFFF, and the
bytes at 0xFFF0..0xFFF9 are the ones the memory held before the load. -/
theorem C1_mirror_fffa (cpu : CPU) (rom : ByteSlice) (chrPage : Nat)
    (h4 : rom.elems[4]? = some 1) (h5 : rom.elems[5]? = some chrPage) (hc : chrPage ≤ 2)
    (hlen : 16 + 16384 + chrPage * 8192 ≤ rom.elems.length) :
    ∃ c, LoadROM cpu rom = some c ∧
      (∀ a, 0xbff0 ≤ a → a ≤ 0xbfff → rom.elems[16 + (a - 0x8000)]? = some (c.RAM a)) ∧
      (∀ a, 0xbffa ≤ a → a ≤ 0xbfff → c.RAM (a + 0x4000) = c.RAM a) ∧
      (∀ a, 0xbff0 ≤ a → a < 0xbffa → c.RAM (a + 0x4000) = cpu.RAM (a + 0x4000)) := by
  refine ⟨_, LoadROM_eq cpu rom 1 chrPage h4 h5 (by omega) hc (by omega), ?_, ?_, ?_⟩
  · intro a h1 h2
    simp only [prgRAM]
    rw [if_pos (by omega)]
    rw [show 1 * 16384 = 16400 - 16 from rfl, getD_drop_take _ _ _ _ (by omega)]
    have hlt : 16 + (a - 0x8000) < rom.elems.length := by omega
    rw [array_getD _ _ hlt]
    simp [List.getD, List.getElem?_eq_getElem hlt]
  · intro a h1 h2
    simp only [prgRAM]
    rw [if_neg (by omega), if_pos ⟨trivial, by omega, by omega⟩, if_pos (by omega)]
    exact congrArg (fun k => List.getD _ k 0) (by omega)
  · intro a h1 h2
    simp only [prgRAM]
    rw [if_neg (by omega), if_neg (by omega)]

/-- The amended C1 at the one-bank image `imageOneBank` on a fresh CPU. -/
theorem C1_mirror_fffa_witness :
    ∃ c, LoadROM cpuZero imageOneBank = some c ∧
      (∀ a, 0xbff0 ≤ a → a ≤ 0xbfff →
        imageOneBank.elems[16 + (a - 0x8000)]? = some (c.RAM a)) ∧
      (∀ a, 0xbffa ≤ a → a ≤ 0xbfff → c.RAM (a + 0x4000) = c.RAM a) ∧
      (∀ a, 0xbff0 ≤ a → a < 0xbffa → c.RAM (a + 0x4000) = cpuZero.RAM (a + 0x4000)) :=
  C1_mirror_fffa cpuZero imageOneBank 0 imageOneBank_four imageOneBank_five
    (by omega) (by have := imageOneBank_length; omega)

/-- C5: for an image with one or two program banks, at most two pattern banks
and enough bytes, after `LoadROM` the CPU memory byte at `0x8000 + i` is
`rom[16 + i]` for every `i < programBanks * 16384`. -/
theorem C5_program_copy (cpu : CPU) (rom : ByteSlice) (prgPage chrPage : Nat)
    (h4 : rom.elems[4]? = some prgPage) (h5 : rom.elems[5]? = some chrPage)
    (hp : prgPage = 1 ∨ prgPage = 2) (hc : chrPage ≤ 2)
    (hlen : 16 + prgPage * 16384 + chrPage * 8192 ≤ rom.elems.length) :
    ∃ c, LoadROM cpu rom = some c ∧
      ∀ i, i < prgPage * 16384 → rom.elems[16 + i]? = some (c.RAM (0x8000 + i)) := by
  refine ⟨_, LoadROM_eq cpu rom prgPage chrPage h4 h5 (by omega) hc hlen, ?_⟩
  intro i hi
  simp only [prgRAM]
  rw [if_pos (by omega)]
  have e : prgPage * 16384 = (16 + prgPage * 16384) - 16 := by omega
  rw [e, getD_drop_take _ _ _ _ (by omega)]
  have hlt : 16 + i < rom.elems.length := by omega
  have e2 : 16 + (0x8000 + i - 0x8000) = 16 + i := by omega
  rw [e2, array_getD _ _ hlt]
  simp [List.getD, List.getElem?_eq_getElem hlt]

/-- C5 at the one-bank image `imageOneBank` on a fresh CPU. -/
theorem C5_program_copy_witness :
    ∃ c, LoadROM cpuZero imageOneBank = some c ∧
      ∀ i, i < 1 * 16384 → imageOneBank.elems[16 + i]? = some (c.RAM (0x8000 + i)) :=
  C5_program_copy cpuZero imageOneBank 1 0 imageOneBank_four imageOneBank_five
    (Or.inl rfl) (by omega) (by have := imageOneBank_length; omega)

/-- C6: for an image with at most two program banks, at most two pattern banks
and enough bytes, after `LoadROM` the PPU memory byte at index `i` is
`rom[16 + programBanks * 16384 + i]` for every `i < patternBanks * 8192`. -/
theorem C6_pattern_copy (cpu : CPU) (rom : ByteSlice) (prgPage chrPage : Nat)
    (h4 : rom.elems[4]? = some prgPage) (h5 : rom.elems[5]? = some chrPage)
    (hp : prgPage ≤ 2) (hc : chrPage ≤ 2)
    (hlen : 16 + prgPage * 16384 + chrPage * 8192 ≤ rom.elems.length) :
    ∃ c, LoadROM cpu rom = some c ∧
      ∀ i, i < chrPage * 8192 →
        rom.elems[16 + prgPage * 16384 + i]? = some (c.PPU.RAM i) := by
  refine ⟨_, LoadROM_eq cpu rom prgPage chrPage h4 h5 hp hc hlen, ?_⟩
  intro i hi
  simp only [chrRAM]
  rw [if_pos hi]
  have e : chrPage * 8192 = (16 + prgPage * 16384 + chrPage * 8192) - (16 + prgPage * 16384) := by
    omega
  rw [e, getD_drop_take _ _ _ _ (by omega)]
  have hlt : 16 + prgPage * 16384 + i < rom.elems.length := by omega
  rw [array_getD _ _ hlt]
  simp [List.getD, List.getElem?_eq_getElem hlt]

/-- C6 at the image `imageChrOnly` (one pattern bank) on a fresh CPU. -/
theorem C6_pattern_copy_witness :
    ∃ c, LoadROM cpuZero imageChrOnly = some c ∧
      ∀ i, i < 1 * 8192 → imageChrOnly.elems[16 + 0 * 16384 + i]? = some (c.PPU.RAM i) :=
  C6_pattern_copy cpuZero imageChrOnly 0 1 imageChrOnly_four imageChrOnly_five
    (by omega) (by omega) (by have := imageChrOnly_length; omega)

/-- C7, as stated, fails: the slice `imageSeven` has 7 bytes, fewer than the
16-byte header, and 9 spare bytes of capacity; its bytes 4 and 5 declare no
bank, and `LoadROM` returns a state on it. -/
theorem C7_spare_capacity_counterexample :
    imageSeven.elems.length < 16 ∧ (LoadROM cpuZero imageSeven).isSome = true := by
  decide

/-- C7, amended: `LoadROM` fails on every byte sequence of fewer than 7 bytes,
and on every byte sequence whose capacity is less than 16 + programBanks *
16384 + patternBanks * 8192 for the bank counts in its bytes 4 and 5; it has no
length check of its own, so a sequence of at least 7 bytes with bank counts of
at most 2 whose capacity reaches that bound is loaded, whatever its length, the
program and pattern bytes being taken from its backing array. -/
theorem C7_load_bounds (cpu : CPU) (rom : ByteSlice) :
    (rom.elems.length < 7 → LoadROM cpu rom = none) ∧
    (rom.cap < 16 + rom.elems.getD 4 0 * 16384 + rom.elems.getD 5 0 * 8192 →
      LoadROM cpu rom = none) ∧
    (7 ≤ rom.elems.length →
      16 + rom.elems.getD 4 0 * 16384 + rom.elems.getD 5 0 * 8192 ≤ rom.cap →
      rom.elems.getD 4 0 ≤ 2 → rom.elems.getD 5 0 ≤ 2 →
      ∃ c, LoadROM cpu rom = some c ∧
        (∀ i, i < rom.elems.getD 4 0 * 16384 →
          c.RAM (0x8000 + i) = rom.array.getD (16 + i) 0) ∧
        (∀ i, i < rom.elems.getD 5 0 * 8192 →
          c.PPU.RAM i = rom.array.getD (16 + rom.elems.getD 4 0 * 16384 + i) 0)) := by
  refine ⟨?_, ?_, ?_⟩
  · intro h
    exact LoadROM_none_of_six cpu rom (by omega)
  · intro hcap
    by_cases h5 : 5 < rom.elems.length
    · exact LoadROM_none_of_short cpu rom _ _
        (by simp [List.getD, List.getElem?_eq_getElem (by omega : 4 < rom.elems.length)])
        (by simp [List.getD, List.getElem?_eq_getElem h5]) hcap
    · exact LoadROM_none_of_six cpu rom (by omega)
  · intro h7 hcap hp hc
    exact LoadROM_cap_bytes cpu rom _ _ (by omega)
      (by simp [List.getD, List.getElem?_eq_getElem (by omega : 4 < rom.elems.length)])
      (by simp [List.getD, List.getElem?_eq_getElem (by omega : 5 < rom.elems.length)])
      hp hc hcap

/-- The amended C7 at the empty slice, at the 16-byte image `imageHeaderOnly`,
whose header declares one program bank, and at the slice `imageSeven`. -/
theorem C7_load_bounds_witness :
    LoadROM cpuZero imageEmpty = none ∧
    LoadROM cpuZero imageHeaderOnly = none ∧
    ∃ c, LoadROM cpuZero imageSeven = some c :=
  ⟨(C7_load_bounds cpuZero imageEmpty).1 (by decide),
    (C7_load_bounds cpuZero imageHeaderOnly).2.1 (by decide),
    ((C7_load_bounds cpuZero imageSeven).2.2 (by decide) (by decide) (by decide)
      (by decide)).imp (fun _ hc => hc.1)⟩

/-! ## Tile decoder and compositor -/

/-- C2 fails on the code: with the attribute byte 0x04 at 0x23C0, block (2, 0)
lies in the top-right quadrant of its cell, whose group is bits 2-3 = 1, but
`outputBlock` selects bits 6-7 = 0; with the attribute byte 0x10, block (0, 2)
lies in the bottom-left quadrant, whose group is bits 4-5 = 1, but `outputBlock`
selects bits 6-7 = 0. -/
theorem C2_quadrant_divergence :
    (2 % 4 ≥ 2 ∧ 0 % 4 < 2 ∧
      blockPallete ppuAttr04 2 0
        = some ((ppuAttr04.RAM (0x23c0 + 2 / 4 + 8 * (0 / 4)) &&& 0xc0) >>> 6) ∧
      blockPallete ppuAttr04 2 0 = some 0 ∧
      (ppuAttr04.RAM (0x23c0 + 2 / 4 + 8 * (0 / 4)) &&& 0x0c) >>> 2 = 1) ∧
    (0 % 4 < 2 ∧ 2 % 4 ≥ 2 ∧
      blockPallete ppuAttr10 0 2
        = some ((ppuAttr10.RAM (0x23c0 + 0 / 4 + 8 * (2 / 4)) &&& 0xc0) >>> 6) ∧
      blockPallete ppuAttr10 0 2 = some 0 ∧
      (ppuAttr10.RAM (0x23c0 + 0 / 4 + 8 * (2 / 4)) &&& 0x30) >>> 4 = 1) := by
  decide

/-- C3 fails on the code: with the object attribute memory of `ppuSprites`, the
only record at pixel (20, 10) is record 1, whose tile number is 0, and the
per-pixel step sets bit 6 of the status byte there; record 0, whose tile number
is 5, is at pixel (100, 100), and the per-pixel step leaves the status byte
unchanged there. -/
theorem C3_sprite_zero_divergence :
    (ppuSprites.sRAM 0 = 99 ∧ ppuSprites.sRAM 1 = 5 ∧ ppuSprites.sRAM 3 = 100) ∧
    (ppuSprites.sRAM 4 = 9 ∧ ppuSprites.sRAM 5 = 0 ∧ ppuSprites.sRAM 7 = 20) ∧
    ((spriteScan ppuSprites).bind (fun m => m (pixelKey 20 10)) = some (0, 0)) ∧
    (((spriteScan ppuSprites).bind (fun m => pixelStep m 20 10 cpuZero)).map
        (fun c => c.RAM 0x2002) = some 0x40) ∧
    ((spriteScan ppuSprites).bind (fun m => m (pixelKey 100 100)) = some (5, 0)) ∧
    (((spriteScan ppuSprites).bind (fun m => pixelStep m 100 100 cpuZero)).map
        (fun c => c.RAM 0x2002) = some 0) := by
  decide

/-- C4: for every tile and every pixel (x, y) of it, the colour-in-group index
that `outputImage` computes is bit (7 - x) of byte y plus twice bit (7 - x) of
byte y + 8, where pixel x and bit 7 - x add up to 7 (the leftmost pixel is the
most significant bit); when the low plane (bytes 0..7) is zero the index is
twice that bit of the high plane. -/
theorem C4_color_in_group (bytes : Nat → Nat) (x y : Nat) (hx : x < 8) (hy : y < 8) :
    x + (7 - x) = 7 ∧
    colorInGroup bytes x y
      = some (bytes y / 2 ^ (7 - x) % 2 + 2 * (bytes (y + 8) / 2 ^ (7 - x) % 2)) ∧
    ((∀ k, k < 8 → bytes k = 0) →
      colorInGroup bytes x y = some (2 * (bytes (y + 8) / 2 ^ (7 - x) % 2))) := by
  refine ⟨by omega, colorInGroup_eq bytes x y hy, ?_⟩
  intro hz
  rw [colorInGroup_eq bytes x y hy, hz y hy]
  simp

/-- C4 at the tile `tileHigh80` and its top-left pixel. -/
theorem C4_color_in_group_witness :
    colorInGroup tileHigh80 0 0 = some 2 := by
  have h := (C4_color_in_group tileHigh80 0 0 (by decide) (by decide)).2.1
  rw [h]
  decide

/-! ## Instruction engine -/

/-- C9, as stated, fails: for the tag "???", which is none of the thirteen
handled tags, the addressing switch reports no error and yields the effective
address 0. -/
theorem C9_unhandled_tag_counterexample :
    "???" ∉ handledTags ∧
    (addressingSwitch modesFFFF "???" cpuZero).map Prod.fst = some 0 := by
  refine ⟨by decide, ?_⟩
  rw [addressingSwitch_default modesFFFF "???" cpuZero (by decide)]
  rfl

/-- C9, amended: when the opcode fetched at PC has an addressing-mode tag that
is none of the thirteen handled tags, the addressing switch of `MainLoop`
reports no error, leaves the state unchanged and yields the effective address 0,
and the loop body hands that address 0 to the instruction switch. -/
theorem C9_unhandled_tag_zero (instructions : Nat → String × String) (m : AddressingModes)
    (h : Instructions) (cpu : CPU) (opcode : Nat)
    (hf : FetchCode8 cpu 0 = some opcode)
    (ht : (instructions opcode).2 ∉ handledTags) :
    addressingSwitch m (instructions opcode).2 cpu = some (0, cpu) ∧
    MainLoopBody instructions m h cpu
      = instructionSwitch h (instructions opcode).1 0 cpu := by
  refine ⟨addressingSwitch_default m _ cpu ht, ?_⟩
  unfold MainLoopBody
  simp only [hf, Option.bind_eq_bind, Option.some_bind,
    addressingSwitch_default m _ cpu ht]

/-- The amended C9 on a fresh CPU, with a table that gives every opcode the
mnemonic "NOP" and the tag "???". -/
theorem C9_unhandled_tag_zero_witness :
    FetchCode8 cpuZero 0 = some 0 ∧ "???" ∉ handledTags ∧
    addressingSwitch modesFFFF "???" cpuZero = some (0, cpuZero) ∧
    MainLoopBody (fun _ => ("NOP", "???")) modesFFFF handlersId cpuZero
      = instructionSwitch handlersId "NOP" 0 cpuZero :=
  ⟨rfl, by decide,
    C9_unhandled_tag_zero (fun _ => ("NOP", "???")) modesFFFF handlersId cpuZero 0 rfl
      (by decide)⟩

/-! ## Palette lookup -/

/-- C8, as stated, fails: with a colour table of 64 entries and the palette byte
64 at 0x3F00, `outputImage` fails on the all-zero tile with selector 0: the byte
is used as the table index as it is. -/
theorem C8_palette_byte_counterexample :
    colors64.length = 64 ∧ ppuPalette64.RAM 0x3f00 = 64 ∧
    (outputImage colors64 ppuPalette64 (fun _ => 0) 0).isNone = true := by
  decide

/-- C8, amended: for every PPU memory content, tile and palette-group selector,
the palette offset `p` of every pixel is at most 255, so the address 0x3F00 + p
stays inside PPU memory; the byte read there is used as the index into the
64-entry colour table as it is, neither wrapped nor masked: `outputImage`
resolves all 64 pixels without failing exactly when, for every pixel, the byte
read is below 64 (so it does when every byte at 0x3F00..0x3FFF is below 64, and
it fails when a byte read is 64 or more), and every pixel of an image it
returns has the R, G, B of the table entry whose index is the byte read. -/
theorem C8_palette_in_range (colors : List (Nat × Nat × Nat)) (ppu : PPU)
    (bytes : Nat → Nat) (pallete : Nat) (hc : colors.length = 64) :
    (∀ x y, x < 8 → y < 8 →
      ∃ p, palleteOffset bytes pallete x y = some p ∧ 0x3f00 + p < ppuRAMSize) ∧
    ((∃ img, outputImage colors ppu bytes pallete = some img) ↔
      ∀ x y, x < 8 → y < 8 →
        ∀ p, palleteOffset bytes pallete x y = some p → ppu.RAM (0x3f00 + p) < 64) ∧
    ((∀ i, i < 256 → ppu.RAM (0x3f00 + i) < 64) →
      ∃ img, outputImage colors ppu bytes pallete = some img) ∧
    (∀ x y, x < 8 → y < 8 →
      ∀ p, palleteOffset bytes pallete x y = some p → 64 ≤ ppu.RAM (0x3f00 + p) →
        outputImage colors ppu bytes pallete = none) ∧
    (∀ img, outputImage colors ppu bytes pallete = some img →
      ∀ x y, x < 8 → y < 8 →
        ∃ p e, palleteOffset bytes pallete x y = some p ∧
          colors[ppu.RAM (0x3f00 + p)]? = some e ∧ img x y = ⟨e.1, e.2.1, e.2.2, 0⟩) := by
  have hoff : ∀ x y, y < 8 → ∃ p, palleteOffset bytes pallete x y = some p ∧ p ≤ 255 :=
    fun x y hy => ⟨_, palleteOffset_eq bytes pallete x y hy, palleteOffset_le bytes pallete x y⟩
  have hfail : ∀ x y, x < 8 → y < 8 →
      ∀ p, palleteOffset bytes pallete x y = some p → 64 ≤ ppu.RAM (0x3f00 + p) →
        outputImage colors ppu bytes pallete = none := by
    intro x y hx hy p hp hge
    obtain ⟨q, hq, hle⟩ := hoff x y hy
    have e : q = p := Option.some.inj (hq.symm.trans hp)
    subst e
    exact outputImage_none colors ppu bytes pallete x y hx hy
      (pixelColor_none colors ppu bytes pallete x y q hq hle (by omega))
  have hok : (∀ x y, x < 8 → y < 8 →
      ∀ p, palleteOffset bytes pallete x y = some p → ppu.RAM (0x3f00 + p) < 64) →
      ∃ img, outputImage colors ppu bytes pallete = some img := by
    intro hpal
    have hpix : ∀ x y, x < 8 → y < 8 → pixelColor colors ppu bytes pallete x y
        = some ((pixelColor colors ppu bytes pallete x y).getD ⟨0, 0, 0, 0⟩) := by
      intro x y hx hy
      obtain ⟨p, hp, hle⟩ := hoff x y hy
      have hlt := hpal x y hx hy p hp
      have he : colors[ppu.RAM (0x3f00 + p)]?
          = some (colors[ppu.RAM (0x3f00 + p)]?.getD (0, 0, 0)) := by
        rw [List.getElem?_eq_getElem (by omega)]
        rfl
      rw [pixelColor_eq colors ppu bytes pallete x y p hp hle _ he]
      rfl
    exact ⟨_, outputImage_eq colors ppu bytes pallete _ hpix⟩
  refine ⟨?_, ⟨?_, hok⟩, ?_, hfail, ?_⟩
  · intro x y _ hy
    obtain ⟨p, hp, hle⟩ := hoff x y hy
    refine ⟨p, hp, ?_⟩
    simp only [ppuRAMSize]
    omega
  · intro hex x y hx hy p hp
    obtain ⟨img, himg⟩ := hex
    by_contra hge
    rw [hfail x y hx hy p hp (by omega)] at himg
    cases himg
  · intro hpal
    refine hok (fun x y _ hy p hp => ?_)
    obtain ⟨q, hq, hle⟩ := hoff x y hy
    have e : q = p := Option.some.inj (hq.symm.trans hp)
    subst e
    exact hpal q (by omega)
  · intro img himg x y hx hy
    obtain ⟨p, hp, hle⟩ := hoff x y hy
    have hpc := outputImage_some colors ppu bytes pallete img himg x y hx hy
    cases he : colors[ppu.RAM (0x3f00 + p)]? with
    | none =>
      rw [pixelColor_none colors ppu bytes pallete x y p hp hle
        (List.getElem?_eq_none_iff.1 he)] at hpc
      cases hpc
    | some e =>
      rw [pixelColor_eq colors ppu bytes pallete x y p hp hle e he] at hpc
      exact ⟨p, e, hp, he, (Option.some.inj hpc).symm⟩

/-- The amended C8 at the table `colors64`, a fresh PPU, the tile `tileHigh80`
and the selector 255, and, for the failure, at the PPU `ppuPalette64`, the
all-zero tile and the selector 0. -/
theorem C8_palette_in_range_witness :
    (∀ x y, x < 8 → y < 8 →
      ∃ p, palleteOffset tileHigh80 255 x y = some p ∧ 0x3f00 + p < ppuRAMSize) ∧
    (∃ img, outputImage colors64 cpuZero.PPU tileHigh80 255 = some img) ∧
    outputImage colors64 ppuPalette64 (fun _ => 0) 0 = none :=
  ⟨(C8_palette_in_range colors64 cpuZero.PPU tileHigh80 255 (by decide)).1,
    (C8_palette_in_range colors64 cpuZero.PPU tileHigh80 255 (by decide)).2.2.1
      (fun _ _ => (by decide : (0 : Nat) < 64)),
    (C8_palette_in_range colors64 ppuPalette64 (fun _ => 0) 0 (by decide)).2.2.2.1
      0 0 (by decide) (by decide) 0 (by decide) (by decide)⟩

/-- C10, as stated, fails: with a colour table of 64 entries, the palette byte 64
at 0x3F00, the all-zero tile and the selector 0, the pixel (0, 0) has colour
index 0 and reads palette RAM at 0x3F00 + 4 * 0 + 0, but the byte stored there
indexes no entry of the table and `outputImage` returns no image. -/
theorem C10_palette_entry_counterexample :
    colorInGroup (fun _ => 0) 0 0 = some 0 ∧
    palleteOffset (fun _ => 0) 0 0 0 = some (4 * 0 + 0) ∧
    colors64[ppuPalette64.RAM (0x3f00 + 4 * 0 + 0)]? = none ∧
    (outputImage colors64 ppuPalette64 (fun _ => 0) 0).isNone = true := by
  decide

/-- C10, amended: for every palette-group selector g in 0..3, every pixel of the
tile has a colour-in-group index c in 0..3 and `outputImage` reads palette RAM
at 0x3F00 + 4 * g + c, which lies in 0x3F00..0x3F0F (4 * g does not overflow a
byte); when the four palette bytes of the group are below the number of entries
of the colour table, `outputImage` returns an image; and in every image that
`outputImage` returns, the pixel has the R, G, B of the table entry indexed by
the byte stored at that address, and alpha 0. -/
theorem C10_palette_address (colors : List (Nat × Nat × Nat)) (ppu : PPU)
    (bytes : Nat → Nat) (g : Nat) (hg : g ≤ 3) :
    (∀ x y, x < 8 → y < 8 →
      ∃ c, colorInGroup bytes x y = some c ∧ c ≤ 3 ∧
        palleteOffset bytes g x y = some (4 * g + c) ∧
        0x3f00 ≤ 0x3f00 + 4 * g + c ∧ 0x3f00 + 4 * g + c ≤ 0x3f0f) ∧
    ((∀ c, c ≤ 3 → ppu.RAM (0x3f00 + 4 * g + c) < colors.length) →
      ∃ img, outputImage colors ppu bytes g = some img) ∧
    (∀ img, outputImage colors ppu bytes g = some img →
      ∀ x y, x < 8 → y < 8 →
        ∃ c R G B, colorInGroup bytes x y = some c ∧
          colors[ppu.RAM (0x3f00 + 4 * g + c)]? = some (R, G, B) ∧
          img x y = ⟨R, G, B, 0⟩) := by
  have hc : ∀ x y, bytes y / 2 ^ (7 - x) % 2 + 2 * (bytes (y + 8) / 2 ^ (7 - x) % 2) ≤ 3 := by
    intro x y
    have h0 : bytes y / 2 ^ (7 - x) % 2 < 2 := Nat.mod_lt _ (by omega)
    have h1 : bytes (y + 8) / 2 ^ (7 - x) % 2 < 2 := Nat.mod_lt _ (by omega)
    omega
  have hoff : ∀ x y, y < 8 → palleteOffset bytes g x y
      = some (4 * g + (bytes y / 2 ^ (7 - x) % 2 + 2 * (bytes (y + 8) / 2 ^ (7 - x) % 2))) := by
    intro x y hy
    rw [palleteOffset_eq bytes g x y hy]
    congr 2
    omega
  refine ⟨?_, ?_, ?_⟩
  · intro x y _ hy
    exact ⟨_, colorInGroup_eq bytes x y hy, hc x y, hoff x y hy, by omega,
      by have := hc x y; omega⟩
  · intro hpal
    have hpix : ∀ x y, x < 8 → y < 8 → pixelColor colors ppu bytes g x y
        = some ((pixelColor colors ppu bytes g x y).getD ⟨0, 0, 0, 0⟩) := by
      intro x y _ hy
      have hlt := hpal _ (hc x y)
      rw [Nat.add_assoc] at hlt
      have he : colors[ppu.RAM (0x3f00 + (4 * g
          + (bytes y / 2 ^ (7 - x) % 2 + 2 * (bytes (y + 8) / 2 ^ (7 - x) % 2))))]?
          = some (colors[ppu.RAM (0x3f00 + (4 * g
            + (bytes y / 2 ^ (7 - x) % 2 + 2 * (bytes (y + 8) / 2 ^ (7 - x) % 2))))]?.getD
              (0, 0, 0)) := by
        rw [List.getElem?_eq_getElem hlt]
        rfl
      rw [pixelColor_eq colors ppu bytes g x y _ (hoff x y hy)
        (by have := hc x y; omega) _ he]
      rfl
    exact ⟨_, outputImage_eq colors ppu bytes g _ hpix⟩
  · intro img himg x y hx hy
    have hpc := outputImage_some colors ppu bytes g img himg x y hx hy
    have hle : 4 * g + (bytes y / 2 ^ (7 - x) % 2 + 2 * (bytes (y + 8) / 2 ^ (7 - x) % 2))
        ≤ 255 := by
      have := hc x y
      omega
    cases he : colors[ppu.RAM (0x3f00 + (4 * g
        + (bytes y / 2 ^ (7 - x) % 2 + 2 * (bytes (y + 8) / 2 ^ (7 - x) % 2))))]? with
    | none =>
      rw [pixelColor_none colors ppu bytes g x y _ (hoff x y hy) hle
        (List.getElem?_eq_none_iff.1 he)] at hpc
      cases hpc
    | some e =>
      rw [pixelColor_eq colors ppu bytes g x y _ (hoff x y hy) hle e he] at hpc
      obtain ⟨R, G, B⟩ := e
      refine ⟨_, R, G, B, colorInGroup_eq bytes x y hy, ?_, (Option.some.inj hpc).symm⟩
      rw [Nat.add_assoc]
      exact he

/-- The amended C10 at the table `colors64`, a fresh PPU, the tile `tileHigh80`
and the selector 3. -/
theorem C10_palette_address_witness :
    (∀ x y, x < 8 → y < 8 →
      ∃ c, colorInGroup tileHigh80 x y = some c ∧ c ≤ 3 ∧
        palleteOffset tileHigh80 3 x y = some (4 * 3 + c) ∧
        0x3f00 ≤ 0x3f00 + 4 * 3 + c ∧ 0x3f00 + 4 * 3 + c ≤ 0x3f0f) ∧
    ∃ img, outputImage colors64 cpuZero.PPU tileHigh80 3 = some img :=
  ⟨(C10_palette_address colors64 cpuZero.PPU tileHigh80 3 (by decide)).1,
    (C10_palette_address colors64 cpuZero.PPU tileHigh80 3 (by decide)).2.1
      (fun _ _ => (by decide : (0 : Nat) < colors64.length))⟩

/-! ## Determinism, registers and opcode fetch -/

theorem index_congr (size : Nat) (a b : Nat → Nat) (h : ∀ i, i < size → a i = b i) :
    index size a = index size b := by
  funext i
  simp only [index]
  split_ifs with hi
  · rw [h i hi]
  · rfl

theorem outputBlock_congr (colors : List (Nat × Nat × Nat)) (p1 p2 : PPU)
    (h : ∀ i, i < ppuRAMSize → p1.RAM i = p2.RAM i) (x y : Nat) :
    outputBlock colors p1 x y = outputBlock colors p2 x y := by
  have e := index_congr ppuRAMSize p1.RAM p2.RAM h
  unfold outputBlock blockPallete blockBytes outputImage pixelColor
  rw [e]

theorem and_two_pow_eq (b k : Nat) : b &&& 2 ^ k = 2 ^ k * (b / 2 ^ k % 2) := by
  rw [← Nat.toNat_testBit]
  apply Nat.eq_of_testBit_eq
  intro i
  rw [Nat.testBit_and, Nat.testBit_two_pow, Nat.testBit_mul_pow_two, Nat.testBit_bool_to_nat]
  by_cases h : k = i
  · subst h
    simp
  · by_cases h3 : k ≤ i
    · have h4 : ¬ (i - k = 0) := by omega
      simp [h, h3, h4]
    · simp [h, h3]

theorem vramDelta_eq (value : Nat) :
    (if (value &&& 0x04) > 0 then (pure 32 : Option Nat) else pure 1)
      = some (if value / 4 % 2 = 1 then 32 else 1) := by
  have e : value &&& 0x04 = 2 ^ 2 * (value / 2 ^ 2 % 2) := and_two_pow_eq value 2
  have hlt : value / 4 % 2 < 2 := Nat.mod_lt _ (by omega)
  rw [e]
  by_cases hb : value / 4 % 2 = 1
  · rw [if_pos hb, if_pos (by norm_num; omega)]
    rfl
  · rw [if_neg hb, if_neg (by norm_num; omega)]
    rfl

theorem foldl_bind_none {σ κ : Type} (f : κ → σ → Option σ) (l : List κ) :
    l.foldl (fun os k => os.bind (f k)) none = none := by
  induction l with
  | nil => rfl
  | cons k l ih => exact ih

theorem forLoop_eq_foldl {σ : Type} (body : Nat → σ → Option σ) (n : Nat) (s : σ) :
    forLoop body n s = (List.range n).foldl (fun os i => os.bind (body i)) (some s) := by
  induction n with
  | zero => rfl
  | succ n ih =>
    show (forLoop body n s).bind (body n) = _
    rw [ih, List.range_succ, List.foldl_append]
    rfl

theorem nestedLoop_eq_foldl {σ : Type} (step : Nat → Nat → σ → Option σ) (m n : Nat)
    (s : σ) :
    forLoop (fun y s => forLoop (fun x s => step x y s) m s) n s
      = ((List.range n).flatMap (fun y => (List.range m).map (fun x => (x, y)))).foldl
          (fun os b => os.bind (step b.1 b.2)) (some s) := by
  have key : ∀ (ys : List Nat) (os : Option σ),
      ys.foldl (fun os y => os.bind (fun s => forLoop (fun x s => step x y s) m s)) os
        = (ys.flatMap (fun y => (List.range m).map (fun x => (x, y)))).foldl
            (fun os b => os.bind (step b.1 b.2)) os := by
    intro ys
    induction ys with
    | nil =>
      intro os
      rfl
    | cons y ys ih =>
      intro os
      rw [List.foldl_cons, List.flatMap_cons, List.foldl_append, ih]
      congr 1
      cases os with
      | none => exact (foldl_bind_none _ _).symm
      | some t =>
        rw [List.foldl_map]
        exact forLoop_eq_foldl _ m t
  rw [forLoop_eq_foldl]
  exact key _ _

theorem drawBlock_comm (f : Frame) (b1 b2 : Nat × Nat) (i1 i2 : Image) (hne : b1 ≠ b2) :
    drawBlock (drawBlock f b1.1 b1.2 i1) b2.1 b2.2 i2
      = drawBlock (drawBlock f b2.1 b2.2 i2) b1.1 b1.2 i1 := by
  obtain ⟨x1, y1⟩ := b1
  obtain ⟨x2, y2⟩ := b2
  have hxy : ¬ (x1 = x2 ∧ y1 = y2) := fun e => hne (by rw [e.1, e.2])
  funext px py
  simp only [drawBlock]
  split_ifs <;> first | with_reducible rfl | (exfalso; omega)

theorem renderBlock_comm (picture : Image → Image) (colors : List (Nat × Nat × Nat))
    (ppu : PPU) (b1 b2 : Nat × Nat) (os : Option Frame) :
    (os.bind (renderBlock picture colors ppu b1.1 b1.2)).bind
        (renderBlock picture colors ppu b2.1 b2.2)
      = (os.bind (renderBlock picture colors ppu b2.1 b2.2)).bind
          (renderBlock picture colors ppu b1.1 b1.2) := by
  by_cases hb : b1 = b2
  · rw [hb]
  · cases os with
    | none => rfl
    | some f =>
      simp only [Option.some_bind, renderBlock, Option.bind_eq_bind, pure]
      cases h1 : outputBlock colors ppu b1.1 b1.2 with
      | none =>
        cases h2 : outputBlock colors ppu b2.1 b2.2 with
        | none => rfl
        | some i2 =>
          simp only [Option.some_bind, Option.none_bind, h1]
      | some i1 =>
        cases h2 : outputBlock colors ppu b2.1 b2.2 with
        | none =>
          simp only [Option.some_bind, Option.none_bind, h2]
        | some i2 =>
          simp only [Option.some_bind, h1, h2]
          rw [drawBlock_comm f b1 b2 _ _ hb]

theorem Set_comm (img : Image) (b1 b2 : Nat × Nat) (c1 c2 : RGBA) (hne : b1 ≠ b2) :
    (img.Set b1.1 b1.2 c1).Set b2.1 b2.2 c2 = (img.Set b2.1 b2.2 c2).Set b1.1 b1.2 c1 := by
  obtain ⟨x1, y1⟩ := b1
  obtain ⟨x2, y2⟩ := b2
  have hxy : ¬ (x1 = x2 ∧ y1 = y2) := fun e => hne (by rw [e.1, e.2])
  funext i j
  simp only [Image.Set]
  split_ifs <;> first | with_reducible rfl | (exfalso; omega)

theorem setPixel_comm (colors : List (Nat × Nat × Nat)) (ppu : PPU) (bytes : Nat → Nat)
    (pallete : Nat) (b1 b2 : Nat × Nat) (os : Option Image) :
    (os.bind (setPixel colors ppu bytes pallete b1.1 b1.2)).bind
        (setPixel colors ppu bytes pallete b2.1 b2.2)
      = (os.bind (setPixel colors ppu bytes pallete b2.1 b2.2)).bind
          (setPixel colors ppu bytes pallete b1.1 b1.2) := by
  by_cases hb : b1 = b2
  · rw [hb]
  · cases os with
    | none => rfl
    | some f =>
      simp only [Option.some_bind, setPixel, Option.bind_eq_bind, pure]
      cases h1 : pixelColor colors ppu bytes pallete b1.1 b1.2 with
      | none =>
        cases h2 : pixelColor colors ppu bytes pallete b2.1 b2.2 with
        | none => rfl
        | some c2 =>
          simp only [Option.some_bind, Option.none_bind, h1]
      | some c1 =>
        cases h2 : pixelColor colors ppu bytes pallete b2.1 b2.2 with
        | none =>
          simp only [Option.some_bind, Option.none_bind, h2]
        | some c2 =>
          simp only [Option.some_bind, h1, h2]
          rw [Set_comm f b1 b2 _ _ hb]

theorem renderPass_eq_renderIn (picture : Image → Image) (colors : List (Nat × Nat × Nat))
    (ppu : PPU) : renderPass picture colors ppu = renderIn picture colors ppu blockOrder :=
  nestedLoop_eq_foldl (fun x y frame => renderBlock picture colors ppu x y frame)
    (width / 8) (height / 8) emptyFrame

theorem outputImage_eq_outputImageIn (colors : List (Nat × Nat × Nat)) (ppu : PPU)
    (bytes : Nat → Nat) (pallete : Nat) :
    outputImage colors ppu bytes pallete
      = outputImageIn colors ppu bytes pallete pixelOrder :=
  nestedLoop_eq_foldl (fun x y img => setPixel colors ppu bytes pallete x y img) 8 8 NewRGBA

theorem pixelColor_congr_mem (colors : List (Nat × Nat × Nat)) (p1 p2 : PPU)
    (h : ∀ i, i < ppuRAMSize → p1.RAM i = p2.RAM i) (bytes : Nat → Nat)
    (pallete x y : Nat) :
    pixelColor colors p1 bytes pallete x y = pixelColor colors p2 bytes pallete x y := by
  have e := index_congr ppuRAMSize p1.RAM p2.RAM h
  unfold pixelColor
  rw [e]

/-- C11: two PPU states with identical memory contents, whatever their mirror,
pointer and scroll fields, give the same 8x8 colour grid for every block (x, y)
with x < 32 and y < 30, so the frame that one pass of `PPU.Render` assembles
from the 32x30 blocks is identical for both. The frame does not depend on the
order in which the blocks are computed and drawn: running the loop body over
the blocks in any permuted order gives, for either state, the frame of the
pass. Nor does a block depend on the order in which its pixels are computed:
running the pixel loop body over the 64 pixels in any permuted order gives the
image of `outputImage`. -/
theorem C11_block_determinism (picture : Image → Image) (colors : List (Nat × Nat × Nat))
    (p1 p2 : PPU) (h : ∀ i, i < ppuRAMSize → p1.RAM i = p2.RAM i) :
    (∀ x y, x < 32 → y < 30 → outputBlock colors p1 x y = outputBlock colors p2 x y) ∧
    renderBlocks colors p1 = renderBlocks colors p2 ∧
    renderPass picture colors p1 = renderPass picture colors p2 ∧
    (∀ order : List (Nat × Nat), order.Perm blockOrder →
      renderIn picture colors p2 order = renderPass picture colors p1) ∧
    (∀ (bytes : Nat → Nat) (pallete : Nat) (order : List (Nat × Nat)),
      order.Perm pixelOrder →
      outputImageIn colors p2 bytes pallete order = outputImage colors p1 bytes pallete) := by
  have e : ∀ x y, outputBlock colors p1 x y = outputBlock colors p2 x y :=
    outputBlock_congr colors p1 p2 h
  have er : renderBlock picture colors p1 = renderBlock picture colors p2 := by
    funext x y frame
    simp only [renderBlock, e]
  have es : setPixel colors p1 = setPixel colors p2 := by
    funext bytes pallete x y img
    simp only [setPixel, pixelColor_congr_mem colors p1 p2 h]
  refine ⟨fun x y _ _ => e x y, ?_, ?_, ?_, ?_⟩
  · unfold renderBlocks
    simp only [e]
  · unfold renderPass
    rw [er]
  · intro order hperm
    rw [renderPass_eq_renderIn]
    unfold renderIn
    rw [er]
    exact hperm.foldl_eq'
      (fun b1 _ b2 _ os => renderBlock_comm picture colors p2 b1 b2 os) _
  · intro bytes pallete order hperm
    rw [outputImage_eq_outputImageIn]
    unfold outputImageIn
    rw [es]
    exact hperm.foldl_eq'
      (fun b1 _ b2 _ os => setPixel_comm colors p2 bytes pallete b1 b2 os) _

/-- C11 at a fresh PPU and the PPU `ppuScrolled`, which has the same memory and
other mirror, pointer and scroll fields, with the identity for the picture
conversion: the frame of the pass is also the one drawn in the reverse order of
the blocks. -/
theorem C11_block_determinism_witness :
    renderPass id colors64 cpuZero.PPU = renderPass id colors64 ppuScrolled ∧
    renderIn id colors64 ppuScrolled blockOrder.reverse = renderPass id colors64 cpuZero.PPU :=
  ⟨(C11_block_determinism id colors64 cpuZero.PPU ppuScrolled (fun _ _ => rfl)).2.2.1,
    (C11_block_determinism id colors64 cpuZero.PPU ppuScrolled (fun _ _ => rfl)).2.2.2.1
      blockOrder.reverse (List.reverse_perm blockOrder)⟩

/-- C12: `CPU.getVRAMDelta` returns 32 when bit 2 of the byte at CPU address
0x2000 is set and 1 otherwise, so its result is 1 or 32, and `PPU.getVRAMDelta`
is the same function of the byte at index 0x2000 of the PPU memory. -/
theorem C12_vram_delta (cpu : CPU) (ppu : PPU) :
    cpu.getVRAMDelta = some (if cpu.RAM 0x2000 / 4 % 2 = 1 then 32 else 1) ∧
    (cpu.getVRAMDelta = some 1 ∨ cpu.getVRAMDelta = some 32) ∧
    ppu.getVRAMDelta = some (if ppu.RAM 0x2000 / 4 % 2 = 1 then 32 else 1) := by
  have hc : cpu.getVRAMDelta = some (if cpu.RAM 0x2000 / 4 % 2 = 1 then 32 else 1) := by
    simp only [CPU.getVRAMDelta, index, cpuRAMSize]
    rw [if_pos (by omega)]
    exact vramDelta_eq (cpu.RAM 0x2000)
  have hp : ppu.getVRAMDelta = some (if ppu.RAM 0x2000 / 4 % 2 = 1 then 32 else 1) := by
    simp only [PPU.getVRAMDelta, index, ppuRAMSize]
    rw [if_pos (by omega)]
    exact vramDelta_eq (ppu.RAM 0x2000)
  refine ⟨hc, ?_, hp⟩
  rw [hc]
  by_cases hb : cpu.RAM 0x2000 / 4 % 2 = 1
  · exact Or.inr (by rw [if_pos hb])
  · exact Or.inl (by rw [if_neg hb])

/-- C13: for a 16-bit PC, `FetchCode8(0)` reads the byte at address PC, in range;
`FetchCode8(index)` returns the byte at PC + index whenever PC + index <= 0xFFFF,
and the sum is not wrapped to 16 bits: when it exceeds 0xFFFF (and is below
2^32, so that the `uint` sum does not wrap either) the access is out of range.
The function assigns nothing, so the embedding yields only the byte. -/
theorem C13_fetch_in_range (cpu : CPU) (hpc : cpu.Reg.PC ≤ 0xffff) :
    FetchCode8 cpu 0 = some (cpu.RAM cpu.Reg.PC) ∧
    (∀ idx, cpu.Reg.PC + idx ≤ 0xffff →
      FetchCode8 cpu idx = some (cpu.RAM (cpu.Reg.PC + idx))) ∧
    (∀ idx, 0xffff < cpu.Reg.PC + idx → cpu.Reg.PC + idx < 2 ^ 32 →
      FetchCode8 cpu idx = none) := by
  refine ⟨?_, ?_, ?_⟩
  · simp only [FetchCode8, index, cpuRAMSize, Nat.add_zero]
    rw [if_pos (by omega)]
  · intro idx h
    simp only [FetchCode8, index, cpuRAMSize]
    rw [if_pos (by omega)]
  · intro idx h _
    simp only [FetchCode8, index, cpuRAMSize]
    rw [if_neg (by omega)]

/-- C13 at the CPU `cpuCtrl04`, whose PC is 0x8000. -/
theorem C13_fetch_in_range_witness :
    cpuCtrl04.Reg.PC ≤ 0xffff ∧ FetchCode8 cpuCtrl04 0 = some (cpuCtrl04.RAM cpuCtrl04.Reg.PC) :=
  ⟨by decide, (C13_fetch_in_range cpuCtrl04 (by decide)).1⟩

/-! ## Acceptance and frame of the loader -/

/-- C14: for every image that `LoadROM` accepts, the recorded mirroring flag is
true exactly when header byte 6 is non-zero and false exactly when it is
zero. -/
theorem C14_mirror_flag (cpu c : CPU) (rom : ByteSlice) (h : LoadROM cpu rom = some c) :
    ∃ b, rom.elems[6]? = some b ∧ (c.PPU.mirror = true ↔ b ≠ 0) ∧
      (c.PPU.mirror = false ↔ b = 0) := by
  obtain ⟨prgPage, chrPage, h6, h4, h5, hp, hc, hcap⟩ := LoadROM_accepts cpu c rom h
  have h6e : rom.elems[6]? = some (rom.elems.getD 6 0) := by
    simp [List.getD, List.getElem?_eq_getElem h6]
  rw [LoadROM_eq_cap cpu rom prgPage chrPage h6 h4 h5 hp hc hcap] at h
  have hc' := Option.some.inj h
  subst hc'
  refine ⟨_, h6e, ?_, ?_⟩
  · simp only [decide_eq_true_eq]
    omega
  · simp only [decide_eq_false_iff_not]
    omega

/-- C14 at the image `imageOneBank`, whose byte 6 is zero, on a fresh CPU. -/
theorem C14_mirror_flag_witness :
    ∃ c b, LoadROM cpuZero imageOneBank = some c ∧ imageOneBank.elems[6]? = some b ∧
      (c.PPU.mirror = true ↔ b ≠ 0) ∧ (c.PPU.mirror = false ↔ b = 0) := by
  obtain ⟨b, h6, h⟩ := C14_mirror_flag cpuZero _ imageOneBank imageOneBank_loads
  exact ⟨_, b, imageOneBank_loads, h6, h⟩

/-- C16: for an image with enough bytes for its bank counts, `LoadROM` completes
without any out-of-range index when both bank counts are at most 2, and the
bound is needed: with 3 or more program banks or 3 or more pattern banks a copy
loop indexes past the end of its destination array and `LoadROM` fails. -/
theorem C16_load_in_range (cpu : CPU) (rom : ByteSlice) (prgPage chrPage : Nat)
    (h4 : rom.elems[4]? = some prgPage) (h5 : rom.elems[5]? = some chrPage)
    (hlen : 16 + prgPage * 16384 + chrPage * 8192 ≤ rom.elems.length) :
    (prgPage ≤ 2 → chrPage ≤ 2 → ∃ c, LoadROM cpu rom = some c) ∧
    (3 ≤ prgPage ∨ 3 ≤ chrPage → LoadROM cpu rom = none) :=
  ⟨fun hp hc => ⟨_, LoadROM_eq cpu rom prgPage chrPage h4 h5 hp hc hlen⟩,
    fun hb => LoadROM_none_of_banks cpu rom prgPage chrPage (by omega) h4 h5
      (by have := cap_ge_length rom; omega) hb⟩

/-- C16 at the image `imageOneBank` on a fresh CPU. -/
theorem C16_load_in_range_witness : ∃ c, LoadROM cpuZero imageOneBank = some c :=
  (C16_load_in_range cpuZero imageOneBank 1 0 imageOneBank_four imageOneBank_five
    (by have := imageOneBank_length; omega)).1 (by omega) (by omega)

/-- C17: for every image that `LoadROM` accepts, `LoadROM` leaves unchanged the
CPU registers, every CPU memory byte below 0x8000, every CPU memory byte at or
above 0x8000 + programBanks * 16384 other than the mirrored bytes
0xFFFA..0xFFFF when programBanks = 1, every PPU memory byte at an index of at
least patternBanks * 8192, and the PPU pointer and scroll fields. -/
theorem C17_load_frame (cpu c : CPU) (rom : ByteSlice) (prgPage chrPage : Nat)
    (h : LoadROM cpu rom = some c)
    (h4 : rom.elems[4]? = some prgPage) (h5 : rom.elems[5]? = some chrPage) :
    c.Reg = cpu.Reg ∧
    (∀ a, a < 0x8000 → c.RAM a = cpu.RAM a) ∧
    (∀ a, 0x8000 + prgPage * 16384 ≤ a → ¬ (prgPage = 1 ∧ 0xfffa ≤ a ∧ a ≤ 0xffff) →
      c.RAM a = cpu.RAM a) ∧
    (∀ i, chrPage * 8192 ≤ i → c.PPU.RAM i = cpu.PPU.RAM i) ∧
    c.PPU.ptr = cpu.PPU.ptr ∧ c.PPU.scroll = cpu.PPU.scroll := by
  obtain ⟨p, q, h6, h4', h5', hp, hc, hcap⟩ := LoadROM_accepts cpu c rom h
  have ep : p = prgPage := Option.some.inj (h4'.symm.trans h4)
  have eq : q = chrPage := Option.some.inj (h5'.symm.trans h5)
  subst ep
  subst eq
  rw [LoadROM_eq_cap cpu rom p q h6 h4 h5 hp hc hcap] at h
  have hc' := Option.some.inj h
  subst hc'
  refine ⟨rfl, ?_, ?_, ?_, rfl, rfl⟩
  · intro a ha
    simp only [prgRAM]
    rw [if_neg (by omega), if_neg (by omega)]
  · intro a ha hm
    simp only [prgRAM]
    rw [if_neg (by omega), if_neg (by omega)]
  · intro i hi
    simp only [chrRAM]
    rw [if_neg (by omega)]

/-- C17 at the image `imageOneBank` on a fresh CPU. -/
theorem C17_load_frame_witness :
    ∃ c, LoadROM cpuZero imageOneBank = some c ∧ c.Reg = cpuZero.Reg ∧
      (∀ a, a < 0x8000 → c.RAM a = cpuZero.RAM a) ∧
      (∀ a, 0x8000 + 1 * 16384 ≤ a → ¬ ((1 : Nat) = 1 ∧ 0xfffa ≤ a ∧ a ≤ 0xffff) →
        c.RAM a = cpuZero.RAM a) ∧
      (∀ i, 0 * 8192 ≤ i → c.PPU.RAM i = cpuZero.PPU.RAM i) ∧
      c.PPU.ptr = cpuZero.PPU.ptr ∧ c.PPU.scroll = cpuZero.PPU.scroll :=
  ⟨_, imageOneBank_loads,
    C17_load_frame cpuZero _ imageOneBank 1 0 imageOneBank_loads imageOneBank_four
      imageOneBank_five⟩

/-! ## Unknown opcodes, block addresses and the sprite lookup -/

theorem instructionSwitch_default (h : Instructions) (instruction : String) (addr : Nat)
    (cpu : CPU) (hm : instruction ∉ dispatchedMnemonics) :
    instructionSwitch h instruction addr cpu = some cpu := by
  unfold instructionSwitch
  split <;> first | rfl | exact absurd (by decide) hm

theorem blockBytes_loop (ppu : PPU) (spriteNum : Nat) (hs : spriteNum * 16 + 16 ≤ 0x4000)
    (n : Nat) (hn : n ≤ 16) :
    forLoop (fun i spriteBytes => do
        let v ← index ppuRAMSize ppu.RAM (spriteNum * 16 + i)
        store 16 spriteBytes i v) n (fun _ => 0)
      = some (fun i => if i < n then ppu.RAM (spriteNum * 16 + i) else 0) := by
  induction n with
  | zero =>
    have e : (fun i => if i < 0 then ppu.RAM (spriteNum * 16 + i) else 0) = fun _ => 0 := by
      funext i
      simp
    rw [e]
    rfl
  | succ n ih =>
    show (forLoop _ n (fun _ => 0)).bind _ = _
    rw [ih (by omega)]
    simp only [Option.some_bind, index, store, ppuRAMSize, Option.bind_eq_bind]
    rw [if_pos (by omega)]
    simp only [Option.some_bind]
    rw [if_pos (by omega)]
    congr 1
    funext i
    split_ifs <;> first | with_reducible rfl | (exfalso; omega) | (congr 2; omega)

theorem blockBytes_eq (ppu : PPU) (spriteNum : Nat) (hs : spriteNum * 16 + 16 ≤ 0x4000) :
    blockBytes ppu spriteNum
      = some (fun i => if i < 16 then ppu.RAM (spriteNum * 16 + i) else 0) :=
  blockBytes_loop ppu spriteNum hs 16 (by omega)

theorem pixelKey_eq (x y : Nat) (hx : x < 256) (hy : y < 256) :
    pixelKey x y = 2 ^ 8 * y + x := by
  unfold pixelKey
  have e1 : y % 65536 = y := Nat.mod_eq_of_lt (by omega)
  have e2 : x % 65536 = x := Nat.mod_eq_of_lt (by omega)
  rw [e1, e2, Nat.shiftLeft_eq, Nat.mul_comm y (2 ^ 8)]
  have e3 : (2 ^ 8 * y) % 65536 = 2 ^ 8 * y := Nat.mod_eq_of_lt (by omega)
  rw [e3, ← Nat.mul_add_lt_is_or (by omega : x < 2 ^ 8)]

theorem recordKey_eq (ppu : PPU) (i : Nat) (hb : ∀ a, ppu.sRAM a < 256) :
    recordKey ppu i = 2 ^ 8 * ((ppu.sRAM (i * 4) + 1) % 256) + ppu.sRAM (i * 4 + 3) := by
  have h := pixelKey_eq (ppu.sRAM (i * 4 + 3)) ((ppu.sRAM (i * 4) + 1) % 256) (hb _)
    (Nat.mod_lt _ (by omega))
  unfold pixelKey at h
  exact h

theorem pixelKey_eq_recordKey (ppu : PPU) (i x y : Nat) (hb : ∀ a, ppu.sRAM a < 256)
    (hx : x < 256) (hy : y < 256) :
    pixelKey x y = recordKey ppu i
      ↔ ppu.sRAM (i * 4 + 3) = x ∧ (ppu.sRAM (i * 4) + 1) % 256 = y := by
  rw [pixelKey_eq x y hx hy, recordKey_eq ppu i hb]
  have h1 := hb (i * 4 + 3)
  have h2 : (ppu.sRAM (i * 4) + 1) % 256 < 256 := Nat.mod_lt _ (by omega)
  constructor
  · intro h
    omega
  · intro h
    omega

theorem spriteScan_loop (ppu : PPU) (n : Nat) (hn : n ≤ 64) :
    forLoop (spriteScanBody ppu) n (fun _ => none) = some (spriteMapUpTo ppu n) := by
  induction n with
  | zero => rfl
  | succ n ih =>
    show (forLoop _ n (fun _ => none)).bind _ = _
    rw [ih (by omega)]
    simp only [Option.some_bind, spriteScanBody, index, sRAMSize, Option.bind_eq_bind]
    rw [if_pos (by omega)]
    simp only [Option.some_bind]
    rw [if_pos (by omega)]
    simp only [Option.some_bind]
    rw [if_pos (by omega)]
    simp only [Option.some_bind]
    rw [if_pos (by omega)]
    rfl

theorem spriteMapUpTo_spec (ppu : PPU) (hb : ∀ a, ppu.sRAM a < 256) (x y : Nat)
    (hx : x < 256) (hy : y < 256) (n : Nat) :
    (∀ i, i < n → ppu.sRAM (i * 4 + 3) = x ∧ (ppu.sRAM (i * 4) + 1) % 256 = y →
      (∀ j, i < j → j < n →
        ¬ (ppu.sRAM (j * 4 + 3) = x ∧ (ppu.sRAM (j * 4) + 1) % 256 = y)) →
      spriteMapUpTo ppu n (pixelKey x y)
        = some (ppu.sRAM (i * 4 + 1), ppu.sRAM (i * 4 + 2))) ∧
    ((∀ i, i < n → ¬ (ppu.sRAM (i * 4 + 3) = x ∧ (ppu.sRAM (i * 4) + 1) % 256 = y)) →
      spriteMapUpTo ppu n (pixelKey x y) = none) := by
  induction n with
  | zero =>
    exact ⟨fun i hi => absurd hi (Nat.not_lt_zero i), fun _ => rfl⟩
  | succ n ih =>
    have hkey := pixelKey_eq_recordKey ppu n x y hb hx hy
    constructor
    · intro i hi hrec hmax
      show (if pixelKey x y = recordKey ppu n then _ else _) = _
      by_cases hn : ppu.sRAM (n * 4 + 3) = x ∧ (ppu.sRAM (n * 4) + 1) % 256 = y
      · rw [if_pos (hkey.2 hn)]
        by_cases hin : i = n
        · rw [hin]
        · exact absurd hn (hmax n (by omega) (by omega))
      · rw [if_neg (fun hk => hn (hkey.1 hk))]
        have hin : i ≠ n := fun e => hn (e ▸ hrec)
        exact ih.1 i (by omega) hrec (fun j h1 h2 => hmax j h1 (by omega))
    · intro hnone
      show (if pixelKey x y = recordKey ppu n then _ else _) = _
      rw [if_neg (fun hk => hnone n (by omega) (hkey.1 hk))]
      exact ih.2 (fun i hi => hnone i (by omega))

theorem ppuSprites_bytes (a : Nat) : ppuSprites.sRAM a < 256 := by
  simp only [ppuSprites]
  split_ifs <;> omega

theorem attrGroup_le (attr x y : Nat) : attrGroup attr x y ≤ 3 := by
  unfold attrGroup
  have h1 : attr &&& 0x03 ≤ 0x03 := Nat.and_le_right
  have h2 : attr &&& 0x0c ≤ 0x0c := Nat.and_le_right
  have h3 : attr &&& 0x30 ≤ 0x30 := Nat.and_le_right
  have h4 : attr &&& 0xc0 ≤ 0xc0 := Nat.and_le_right
  split_ifs
  · exact h1
  · rw [Nat.shiftRight_eq_div_pow]
    omega
  · rw [Nat.shiftRight_eq_div_pow]
    omega
  · rw [Nat.shiftRight_eq_div_pow]
    omega

theorem blockPallete_eq (ppu : PPU) (x y : Nat) (hx : x < 32) (hy : y < 30) :
    blockPallete ppu x y
      = some (attrGroup (ppu.RAM (0x23c0 + x / 4 + y / 4 * 0x08)) x y) := by
  unfold blockPallete attrGroup
  simp only [index, ppuRAMSize]
  rw [if_pos (by omega)]
  simp only [Option.bind_eq_bind, Option.some_bind, pure]
  split_ifs <;> rfl

theorem outputBlock_eq (colors : List (Nat × Nat × Nat)) (ppu : PPU) (x y : Nat)
    (hx : x < 32) (hy : y < 30) (ht : ppu.RAM (0x2000 + x + y * 0x20) < 256) :
    outputBlock colors ppu x y
      = outputImage colors ppu
          (fun i =>
            if i < 16 then ppu.RAM (ppu.RAM (0x2000 + x + y * 0x20) * 16 + i) else 0)
          (attrGroup (ppu.RAM (0x23c0 + x / 4 + y / 4 * 0x08)) x y) := by
  have hidx1 : index ppuRAMSize ppu.RAM (0x2000 + x + y * 0x20)
      = some (ppu.RAM (0x2000 + x + y * 0x20)) := by
    simp only [index, ppuRAMSize]
    rw [if_pos (by omega)]
  unfold outputBlock
  simp only [hidx1, blockPallete_eq ppu x y hx hy,
    blockBytes_eq ppu (ppu.RAM (0x2000 + x + y * 0x20)) (by omega),
    Option.bind_eq_bind, Option.some_bind]

theorem palleteOffset_group_le (bytes : Nat → Nat) (attr x y px py : Nat) :
    (attrGroup attr x y * 4) % 256
      + (bytes py / 2 ^ (7 - px) % 2 + 2 * (bytes (py + 8) / 2 ^ (7 - px) % 2)) ≤ 15 := by
  have hg := attrGroup_le attr x y
  have h0 : bytes py / 2 ^ (7 - px) % 2 < 2 := Nat.mod_lt _ (by omega)
  have h1 : bytes (py + 8) / 2 ^ (7 - px) % 2 < 2 := Nat.mod_lt _ (by omega)
  omega

theorem forLoop_congr {σ : Type} (f g : Nat → σ → Option σ) (n : Nat)
    (h : ∀ i, i < n → ∀ s, f i s = g i s) (s : σ) :
    forLoop f n s = forLoop g n s := by
  induction n with
  | zero => rfl
  | succ n ih =>
    show (forLoop f n s).bind (f n) = (forLoop g n s).bind (g n)
    rw [ih (fun i hi => h i (by omega))]
    cases forLoop g n s with
    | none => rfl
    | some t => exact h n (by omega) t

theorem pixelColor_congr (colors : List (Nat × Nat × Nat)) (p1 p2 : PPU) (bytes : Nat → Nat)
    (pallete x y : Nat) (hy : y < 8) (hg : pallete ≤ 3)
    (h : ∀ i, i < 16 → p1.RAM (0x3f00 + i) = p2.RAM (0x3f00 + i)) :
    pixelColor colors p1 bytes pallete x y = pixelColor colors p2 bytes pallete x y := by
  have h0 : bytes y / 2 ^ (7 - x) % 2 < 2 := Nat.mod_lt _ (by omega)
  have h1 : bytes (y + 8) / 2 ^ (7 - x) % 2 < 2 := Nat.mod_lt _ (by omega)
  simp only [pixelColor, palleteOffset_eq bytes pallete x y hy, Option.bind_eq_bind,
    Option.some_bind, index, ppuRAMSize]
  rw [if_pos (by omega), if_pos (by omega), h _ (by omega)]

theorem outputImage_congr (colors : List (Nat × Nat × Nat)) (p1 p2 : PPU) (bytes : Nat → Nat)
    (attr x y : Nat)
    (h : ∀ i, i < 16 → p1.RAM (0x3f00 + i) = p2.RAM (0x3f00 + i)) :
    outputImage colors p1 bytes (attrGroup attr x y)
      = outputImage colors p2 bytes (attrGroup attr x y) := by
  unfold outputImage
  refine forLoop_congr _ _ 8 (fun j hj img => ?_) NewRGBA
  refine forLoop_congr _ _ 8 (fun i _ img2 => ?_) img
  show (pixelColor colors p1 bytes (attrGroup attr x y) i j).bind _
    = (pixelColor colors p2 bytes (attrGroup attr x y) i j).bind _
  rw [pixelColor_congr colors p1 p2 bytes _ i j hj (attrGroup_le attr x y) h]

/-- C15: when the opcode fetched at PC has a mnemonic that is none of the
dispatched mnemonics and an addressing-mode tag that is none of the thirteen
handled tags, one iteration of the body of `MainLoop` returns the state it was
given: registers (PC included), CPU memory and PPU state are unchanged. -/
theorem C15_unknown_opcode_noop (instructions : Nat → String × String)
    (m : AddressingModes) (h : Instructions) (cpu : CPU) (opcode : Nat)
    (hf : FetchCode8 cpu 0 = some opcode)
    (hi : (instructions opcode).1 ∉ dispatchedMnemonics)
    (ht : (instructions opcode).2 ∉ handledTags) :
    MainLoopBody instructions m h cpu = some cpu := by
  unfold MainLoopBody
  simp only [hf, Option.bind_eq_bind, Option.some_bind,
    addressingSwitch_default m _ cpu ht]
  exact instructionSwitch_default h _ 0 cpu hi

/-- C15 on a fresh CPU, with a table that gives every opcode the mnemonic "???"
and the tag "???". -/
theorem C15_unknown_opcode_noop_witness :
    FetchCode8 cpuZero 0 = some 0 ∧ "???" ∉ dispatchedMnemonics ∧ "???" ∉ handledTags ∧
    MainLoopBody (fun _ => ("???", "???")) modesFFFF handlersId cpuZero = some cpuZero :=
  ⟨rfl, by decide, by decide,
    C15_unknown_opcode_noop (fun _ => ("???", "???")) modesFFFF handlersId cpuZero 0 rfl
      (by decide) (by decide)⟩

/-- C18: for a PPU memory of bytes and a block (x, y) with x < 32 and y < 30,
`outputBlock` reads the tile index at 0x2000 + x + 32 * y inside the nametable
0x2000..0x23BF, the attribute byte at 0x23C0 + x / 4 + 8 * (y / 4) inside
0x23C0..0x23FF, and the 16 tile bytes at tileIndex * 16 .. tileIndex * 16 + 15
inside the first pattern table 0x0000..0x0FFF; all these reads are in range, so
are the palette reads at 0x3F00 + p, and the block is the image that
`outputImage` gives for these tile bytes and the group selected from that
attribute byte. The block depends on no other byte: a PPU memory that agrees on
these addresses and on the palette bytes 0x3F00..0x3F0F gives the same block. -/
theorem C18_block_addresses (colors : List (Nat × Nat × Nat)) (ppu : PPU) (x y : Nat)
    (hb : ∀ a, ppu.RAM a < 256) (hx : x < 32) (hy : y < 30) :
    (0x2000 ≤ 0x2000 + x + y * 0x20 ∧ 0x2000 + x + y * 0x20 ≤ 0x23bf ∧
      0x2000 + x + y * 0x20 = 0x2000 + x + 32 * y ∧
      index ppuRAMSize ppu.RAM (0x2000 + x + y * 0x20)
        = some (ppu.RAM (0x2000 + x + y * 0x20))) ∧
    (0x23c0 ≤ 0x23c0 + x / 4 + y / 4 * 0x08 ∧ 0x23c0 + x / 4 + y / 4 * 0x08 ≤ 0x23ff ∧
      0x23c0 + x / 4 + y / 4 * 0x08 = 0x23c0 + x / 4 + 8 * (y / 4) ∧
      index ppuRAMSize ppu.RAM (0x23c0 + x / 4 + y / 4 * 0x08)
        = some (ppu.RAM (0x23c0 + x / 4 + y / 4 * 0x08))) ∧
    (∀ i, i < 16 → ppu.RAM (0x2000 + x + y * 0x20) * 16 + i ≤ 0x0fff) ∧
    blockBytes ppu (ppu.RAM (0x2000 + x + y * 0x20))
      = some (fun i =>
          if i < 16 then ppu.RAM (ppu.RAM (0x2000 + x + y * 0x20) * 16 + i) else 0) ∧
    blockPallete ppu x y
      = some (attrGroup (ppu.RAM (0x23c0 + x / 4 + y / 4 * 0x08)) x y) ∧
    (∀ px py, px < 8 → py < 8 →
      ∃ p, palleteOffset
          (fun i =>
            if i < 16 then ppu.RAM (ppu.RAM (0x2000 + x + y * 0x20) * 16 + i) else 0)
          (attrGroup (ppu.RAM (0x23c0 + x / 4 + y / 4 * 0x08)) x y) px py = some p ∧
        p ≤ 15 ∧ 0x3f00 + p < ppuRAMSize) ∧
    outputBlock colors ppu x y
      = outputImage colors ppu
          (fun i =>
            if i < 16 then ppu.RAM (ppu.RAM (0x2000 + x + y * 0x20) * 16 + i) else 0)
          (attrGroup (ppu.RAM (0x23c0 + x / 4 + y / 4 * 0x08)) x y) ∧
    (∀ ppu2 : PPU,
      ppu2.RAM (0x2000 + x + y * 0x20) = ppu.RAM (0x2000 + x + y * 0x20) →
      ppu2.RAM (0x23c0 + x / 4 + y / 4 * 0x08) = ppu.RAM (0x23c0 + x / 4 + y / 4 * 0x08) →
      (∀ i, i < 16 →
        ppu2.RAM (ppu.RAM (0x2000 + x + y * 0x20) * 16 + i)
          = ppu.RAM (ppu.RAM (0x2000 + x + y * 0x20) * 16 + i)) →
      (∀ i, i < 16 → ppu2.RAM (0x3f00 + i) = ppu.RAM (0x3f00 + i)) →
      outputBlock colors ppu2 x y = outputBlock colors ppu x y) := by
  have ht := hb (0x2000 + x + y * 0x20)
  have hidx1 : index ppuRAMSize ppu.RAM (0x2000 + x + y * 0x20)
      = some (ppu.RAM (0x2000 + x + y * 0x20)) := by
    simp only [index, ppuRAMSize]
    rw [if_pos (by omega)]
  have hidx2 : index ppuRAMSize ppu.RAM (0x23c0 + x / 4 + y / 4 * 0x08)
      = some (ppu.RAM (0x23c0 + x / 4 + y / 4 * 0x08)) := by
    simp only [index, ppuRAMSize]
    rw [if_pos (by omega)]
  have hbytes := blockBytes_eq ppu (ppu.RAM (0x2000 + x + y * 0x20)) (by omega)
  have hp := blockPallete_eq ppu x y hx hy
  refine ⟨⟨by omega, by omega, by omega, hidx1⟩, ⟨by omega, by omega, by omega, hidx2⟩,
    fun i hi => by omega, hbytes, hp, ?_, outputBlock_eq colors ppu x y hx hy ht, ?_⟩
  · intro px py _ hpy
    refine ⟨_, palleteOffset_eq _ _ px py hpy, ?_⟩
    have hle := palleteOffset_group_le
      (fun i => if i < 16 then ppu.RAM (ppu.RAM (0x2000 + x + y * 0x20) * 16 + i) else 0)
      (ppu.RAM (0x23c0 + x / 4 + y / 4 * 0x08)) x y px py
    simp only [ppuRAMSize]
    omega
  · intro ppu2 h1 h2 h3 h4
    rw [outputBlock_eq colors ppu x y hx hy ht,
      outputBlock_eq colors ppu2 x y hx hy (by rw [h1]; exact ht), h1, h2]
    have hbs : (fun i => if i < 16 then ppu2.RAM (ppu.RAM (0x2000 + x + y * 0x20) * 16 + i)
        else 0)
        = (fun i => if i < 16 then ppu.RAM (ppu.RAM (0x2000 + x + y * 0x20) * 16 + i)
        else 0) := by
      funext i
      by_cases hi : i < 16
      · rw [if_pos hi, if_pos hi, h3 i hi]
      · rw [if_neg hi, if_neg hi]
    rw [hbs]
    exact outputImage_congr colors ppu2 ppu _ _ _ _ h4

/-- C18 at a fresh PPU and the last block (31, 29). -/
theorem C18_block_addresses_witness :
    0x2000 + 31 + 29 * 0x20 ≤ 0x23bf ∧ 0x23c0 + 31 / 4 + 29 / 4 * 0x08 ≤ 0x23ff ∧
    blockPallete cpuZero.PPU 31 29
      = some (attrGroup (cpuZero.PPU.RAM (0x23c0 + 31 / 4 + 29 / 4 * 0x08)) 31 29) :=
  have h := C18_block_addresses colors64 cpuZero.PPU 31 29
    (fun _ => (by decide : (0 : Nat) < 256)) (by decide) (by decide)
  ⟨h.1.2.1, h.2.1.2.1, h.2.2.2.2.1⟩

/-- C19: for an object attribute memory of bytes, the sprite scan returns a
lookup that maps pixel (x, y) to the pair (tile number, attribute byte) of the
highest-indexed record i in 0..63 with OAM[4i+3] = x and (OAM[4i] + 1) mod 256
= y, and that has no entry for a pixel that no record matches. -/
theorem C19_sprite_lookup (ppu : PPU) (hb : ∀ a, ppu.sRAM a < 256) :
    ∃ m, spriteScan ppu = some m ∧
      ∀ x y, x < 256 → y < 240 →
        (∀ i, i < 64 → ppu.sRAM (i * 4 + 3) = x ∧ (ppu.sRAM (i * 4) + 1) % 256 = y →
          (∀ j, i < j → j < 64 →
            ¬ (ppu.sRAM (j * 4 + 3) = x ∧ (ppu.sRAM (j * 4) + 1) % 256 = y)) →
          m (pixelKey x y) = some (ppu.sRAM (i * 4 + 1), ppu.sRAM (i * 4 + 2))) ∧
        ((∀ i, i < 64 →
            ¬ (ppu.sRAM (i * 4 + 3) = x ∧ (ppu.sRAM (i * 4) + 1) % 256 = y)) →
          m (pixelKey x y) = none) :=
  ⟨_, spriteScan_loop ppu 64 (by omega),
    fun x y hx hy => spriteMapUpTo_spec ppu hb x y hx (by omega) 64⟩

/-- C19 at the object attribute memory of `ppuSprites` and pixel (20, 10), where
record 1 is the only record. -/
theorem C19_sprite_lookup_witness :
    ∃ m, spriteScan ppuSprites = some m ∧ m (pixelKey 20 10) = some (0, 0) := by
  obtain ⟨m, hm, hspec⟩ := C19_sprite_lookup ppuSprites ppuSprites_bytes
  refine ⟨m, hm, ?_⟩
  have h := (hspec 20 10 (by decide) (by decide)).1 1 (by decide) (by decide) ?_
  · exact h
  · intro j h1 h2
    simp only [ppuSprites]
    intro hc
    have h3 := hc.1
    split_ifs at h3 <;> omega

end emulator
